import Mathlib

/-!
# Edumanage: shallow embedding of the transactional core

This file embeds, in Lean 4, the relational data model and the transactional
operations of the Edumanage school-administration backend (an Express/Prisma
JavaScript application), and proves/refutes the frozen specification claims
about it.

Modelling conventions:
* Each database table of `src/prisma/migration.sql` is a `List` of rows inside
  one `Store` structure.  Opaque UUID identifiers are modelled as `Nat`.
* Prisma's `$transaction` with its rollback-on-error semantics is modelled by
  each operation having type `Store → ... → Except ApiError Store`: an error
  result means the transaction rolled back and the store is unchanged.
* JavaScript `Date` timestamps are modelled as `Nat` milliseconds since the
  epoch (the runtime is taken to be in the UTC timezone, so `setDate(d+1)`
  is `+ dayMs`).  A "YYYY-MM-DD" date string parsed by `new Date` is a
  multiple of `dayMs` (UTC midnight of that calendar day).
* Columns that no claim mentions (admission numbers, file URLs, salaries,
  check-in/out times' semantics, ...) are either carried opaquely or omitted;
  every column that participates in a claim is modelled.
* Error sites (`throw new Error(...)` / `res.status(...)`) are modelled by an
  `ApiError` inductive carrying the data interpolated into the message
  (offending student ids, capacities, enrollment counts), so that claims
  about error contents can be stated.
* `createMany` with `skipDuplicates: true` compiles to
  `INSERT ... ON CONFLICT DO NOTHING`; per `migration.sql` the
  `student_course_enrollments` table has **no** unique constraint on
  `(student_id, course_offering_id)` (only the surrogate primary key), so the
  flag never suppresses a row; the embedding therefore inserts every row.
-/

/-- Milliseconds in one calendar day (UTC; the JS code steps dates with
`setDate(getDate()+1)` which in UTC is exactly this increment). -/
def dayMs : Nat := 86400000

inductive AttStatus
  | present | absent | late | half_day | on_leave
  deriving DecidableEq, Repr

inductive AttSource
  | manual | manual_bulk | biometric
  deriving DecidableEq, Repr

inductive LeaveStatus
  | pending | approved | rejected
  deriving DecidableEq, Repr

inductive EnrollStatus
  | enrolled | withdrawn | completed
  deriving DecidableEq, Repr

/-- `academic_years` row. -/
structure AcademicYear where
  academicYearId : Nat
  isActive : Bool
  deriving DecidableEq, Repr

/-- `classes` row (capacity-relevant columns). -/
structure SchoolClass where
  classId : Nat
  academicYearId : Nat
  standard : String
  sectionName : String
  capacity : Nat
  deriving DecidableEq, Repr

/-- `subjects` row. -/
structure Subject where
  subjectId : Nat
  subjectName : String
  deriving DecidableEq, Repr

/-- `employees` row (only the identifier matters for the claims). -/
structure Employee where
  employeeId : Nat
  deriving DecidableEq, Repr

/-- `students` row; `user_id` is the nullable link to a login credential. -/
structure Student where
  studentId : Nat
  userId : Option Nat
  deriving DecidableEq, Repr

/-- `admissions` row.  The unique `admission_number`/`gr_number` text columns
are generated from a timestamp and never read back by the modelled
operations, so they are carried as one opaque `Nat` tag. -/
structure Admission where
  studentId : Nat
  classId : Nat
  admissionDate : Nat
  numberTag : Nat
  deriving DecidableEq, Repr

/-- `course_offerings` row. -/
structure CourseOffering where
  offeringId : Nat
  classId : Nat
  subjectId : Nat
  teacherId : Option Nat
  isMandatory : Bool
  deriving DecidableEq, Repr

/-- `student_course_enrollments` row.  There is no unique constraint on
`(student_id, course_offering_id)` in `migration.sql`; list multiplicity
models row multiplicity. -/
structure Enrollment where
  studentId : Nat
  offeringId : Nat
  status : EnrollStatus
  deriving DecidableEq, Repr

/-- `student_attendance` row; unique key `(student_id, date)`. -/
structure StudentAttendance where
  attendanceId : Nat
  studentId : Nat
  classId : Nat
  date : Nat
  status : AttStatus
  remarks : Option String
  deriving DecidableEq, Repr

/-- `employee_attendance` row; unique key `(employee_id, date)`. -/
structure EmployeeAttendance where
  employeeId : Nat
  date : Nat
  status : AttStatus
  source : AttSource
  remarks : Option String
  checkIn : Option Nat
  checkOut : Option Nat
  deriving DecidableEq, Repr

/-- `employee_leaves` row. -/
structure EmployeeLeave where
  leaveId : Nat
  employeeId : Nat
  startDate : Nat
  endDate : Nat
  reason : String
  status : LeaveStatus
  deriving DecidableEq, Repr

/-- `leave_status_history` row (append-only audit trail). -/
structure LeaveHistory where
  leaveId : Nat
  status : LeaveStatus
  comment : Option String
  deriving DecidableEq, Repr

/-- The relational store: one list per table, plus a fresh-id counter
standing for the database's id generation. -/
structure Store where
  academicYears : List AcademicYear := []
  classes : List SchoolClass := []
  subjects : List Subject := []
  employees : List Employee := []
  students : List Student := []
  admissions : List Admission := []
  offerings : List CourseOffering := []
  enrollments : List Enrollment := []
  studentAttendance : List StudentAttendance := []
  employeeAttendance : List EmployeeAttendance := []
  leaves : List EmployeeLeave := []
  leaveHistory : List LeaveHistory := []
  nextId : Nat := 0
  deriving DecidableEq, Repr

/-- Error taxonomy: each constructor corresponds to a `throw new Error(...)`
site and carries the data interpolated into that error's message. -/
inductive ApiError
  | validation (msg : String)
  | notFound (msg : String)
  | forbidden (msg : String)
  | invalidState (msg : String)
  | capacityExceeded (capacity : Nat)
  | alreadyAdmitted (studentIds : List Nat)
  | enrolledConflict (count : Nat)
  | nameConflict (name : String)
  | noActiveYear
  deriving DecidableEq, Repr

/-- Number of admission rows currently pointing at a class
(`_count.admissions` in the Prisma queries). -/
def countAdmissions (s : Store) (classId : Nat) : Nat :=
  (s.admissions.filter (fun a => a.classId == classId)).length

/-- `src/unnamed/part_001`, `addStudentsToClass`:
admit a batch of students into a class inside one transaction.
`now` stands for `Date.now()` used to generate the admission/GR numbers. -/
def addStudentsToClass (s : Store) (classId : Nat) (studentIds : List Nat)
    (now : Nat) : Except ApiError Store :=
  -- 1. basic validation
  if studentIds.isEmpty then
    .error (.validation "studentIds must be a non-empty array.")
  else
    -- Step A: fetch the class with its admission count
    match s.classes.find? (fun c => c.classId == classId) with
    | none => .error (.notFound "Class not found.")
    | some classData =>
      -- Step B: capacity check
      let currentStudentCount := countAdmissions s classId
      let newStudentsCount := studentIds.length
      if classData.capacity < currentStudentCount + newStudentsCount then
        .error (.capacityExceeded classData.capacity)
      else
        -- Step C: students already admitted in a class of the same academic year
        let existingAdmissions := s.admissions.filter (fun a =>
          studentIds.contains a.studentId &&
            s.classes.any (fun c =>
              c.classId == a.classId && c.academicYearId == classData.academicYearId))
        if existingAdmissions.isEmpty then
          -- Steps D-E: batch insert one admission per listed student id
          let admissionsToCreate := (List.range studentIds.length).zip studentIds |>.map
            (fun p => Admission.mk p.2 classId now (now + p.1))
          .ok { s with admissions := s.admissions ++ admissionsToCreate }
        else
          .error (.alreadyAdmitted (existingAdmissions.map (fun a => a.studentId)))

/-- `src/unnamed/part_012`, `promoteStudents`:
move a batch of students to a target class and re-derive their subject
enrollments from the target class's course offerings. -/
def promoteStudents (s : Store) (studentIds : List Nat) (targetClassId : Nat) :
    Except ApiError Store :=
  if studentIds.isEmpty then
    .error (.validation "The studentIds field must be a non-empty array.")
  else
    -- 1. fetch target class and its admission count
    match s.classes.find? (fun c => c.classId == targetClassId) with
    | none => .error (.notFound "Target class not found.")
    | some targetClass =>
      -- 2. capacity check
      let currentStudentCount := countAdmissions s targetClassId
      if targetClass.capacity < currentStudentCount + studentIds.length then
        .error (.capacityExceeded targetClass.capacity)
      else
        -- 3. current admissions of the given students (their current classes)
        let currentAdmissions := s.admissions.filter
          (fun a => studentIds.contains a.studentId)
        -- `[...new Set(...)]`
        let currentClassIds := (currentAdmissions.map (fun a => a.classId)).dedup
        -- 4. course offerings of the target class
        let targetCourseOfferings := s.offerings.filter
          (fun o => o.classId == targetClassId)
        -- 5. transaction: update admissions, delete old enrollments, insert new
        let admissions' := s.admissions.map (fun a =>
          if studentIds.contains a.studentId then { a with classId := targetClassId } else a)
        let enrollments' := s.enrollments.filter (fun e =>
          !(studentIds.contains e.studentId &&
            (match s.offerings.find? (fun o => o.offeringId == e.offeringId) with
             | some o => currentClassIds.contains o.classId
             | none => false)))
        -- `createMany` with `skipDuplicates` inserts every row: there is no
        -- unique constraint on (student_id, course_offering_id) to conflict with.
        let enrollmentData := studentIds.flatMap (fun sid =>
          targetCourseOfferings.map (fun o => Enrollment.mk sid o.offeringId .enrolled))
        .ok { s with
                admissions := admissions'
                enrollments := enrollments' ++ enrollmentData }

/-- The capacity invariant of the spec: every class holds at most
`capacity` admissions. -/
def capacityInv (s : Store) : Prop :=
  ∀ c ∈ s.classes, countAdmissions s c.classId ≤ c.capacity

instance : DecidablePred capacityInv := fun s =>
  inferInstanceAs (Decidable (∀ c ∈ s.classes, countAdmissions s c.classId ≤ c.capacity))

/-- The one-admission-per-year invariant of the spec: a student holds at most
one admission whose class belongs to a given academic year. -/
def oneAdmissionPerYear (s : Store) : Prop :=
  ∀ a ∈ s.admissions, ∀ y ∈ s.academicYears,
    ((s.admissions.filter (fun b =>
        b.studentId == a.studentId &&
          s.classes.any (fun c =>
            c.classId == b.classId && c.academicYearId == y.academicYearId))).length) ≤ 1

instance : DecidablePred oneAdmissionPerYear := fun s =>
  inferInstanceAs (Decidable (∀ a ∈ s.admissions, ∀ y ∈ s.academicYears,
    ((s.admissions.filter (fun b =>
        b.studentId == a.studentId &&
          s.classes.any (fun c =>
            c.classId == b.classId && c.academicYearId == y.academicYearId))).length) ≤ 1))

/-- JavaScript `String.prototype.trim()`: strip leading and trailing
whitespace (defined on the character list so that it evaluates inside the
kernel). -/
def trimString (s : String) : String :=
  ((s.data.dropWhile Char.isWhitespace).reverse.dropWhile
      Char.isWhitespace).reverse.asString

/-- `src/controllers/admin/subject/editSubjectController.js`, `editSubject`:
update a subject's name and synchronize its course offerings against a
target `(standard, sections)` set, inside one transaction.  In the JS code the
subject-name update happens *before* the enrolled-students guard; because the
guard throws inside `prisma.$transaction`, the name update is rolled back,
which the `Except` result models. -/
def editSubject (s : Store) (subjectId : Nat) (name : String) (standard : String)
    (sections : List String) (teacherId : Nat) (isMandatory : Bool) :
    Except ApiError Store :=
  -- 1. basic input validation
  if trimString name == "" then
    .error (.validation "Subject name is required and cannot be empty.")
  else if standard == "" then
    .error (.validation "Standard is required.")
  else if sections.isEmpty then
    .error (.validation "At least one section must be selected.")
  else
    -- 2. verify subject, teacher and active year
    match s.subjects.find? (fun x => x.subjectId == subjectId) with
    | none => .error (.notFound "Subject not found.")
    | some subjectToUpdate =>
      if !(s.employees.any (fun e => e.employeeId == teacherId)) then
        .error (.notFound "The selected teacher does not exist.")
      else
        match s.academicYears.find? (fun y => y.isActive) with
        | none => .error .noActiveYear
        | some activeAcademicYear =>
          -- 3. name-conflict check (only when the name changed)
          if trimString name != subjectToUpdate.subjectName &&
              s.subjects.any (fun x =>
                x.subjectName == trimString name && x.subjectId != subjectId) then
            .error (.nameConflict (trimString name))
          else
            -- 4. update the subject row
            let subjects' := s.subjects.map (fun x =>
              if x.subjectId == subjectId then { x with subjectName := trimString name } else x)
            -- 5a. desired state: target classes for (standard, sections, active year)
            let targetClasses := s.classes.filter (fun c =>
              c.standard == standard && sections.contains c.sectionName &&
                c.academicYearId == activeAcademicYear.academicYearId)
            if targetClasses.length != sections.length then
              .error (.notFound "One or more of the specified classes could not be found for the active academic year.")
            else
              let targetClassIds := targetClasses.map (fun c => c.classId)
              -- 5b. current state: existing offerings of the subject
              let existingOfferings := s.offerings.filter
                (fun o => o.subjectId == subjectId)
              let existingClassIds := existingOfferings.map (fun o => o.classId)
              -- 5c. offerings to delete, guarded by the enrollment count
              let offeringsToDelete := existingOfferings.filter
                (fun o => !(targetClassIds.contains o.classId))
              let offeringIdsToDelete := offeringsToDelete.map (fun o => o.offeringId)
              let enrollmentsCount := (s.enrollments.filter
                (fun e => offeringIdsToDelete.contains e.offeringId)).length
              if !offeringsToDelete.isEmpty && 0 < enrollmentsCount then
                .error (.enrolledConflict enrollmentsCount)
              else
                let afterDelete := s.offerings.filter
                  (fun o => !(offeringIdsToDelete.contains o.offeringId))
                -- 5d. offerings to refresh (teacher / mandatory flag)
                let classIdsToUpdate := existingClassIds.filter
                  (fun i => targetClassIds.contains i)
                let afterUpdate := afterDelete.map (fun o =>
                  if o.subjectId == subjectId && classIdsToUpdate.contains o.classId then
                    { o with teacherId := some teacherId, isMandatory := isMandatory }
                  else o)
                -- 5e. offerings to create
                let classIdsToCreate := targetClassIds.filter
                  (fun i => !(existingClassIds.contains i))
                let newOfferings := (List.range classIdsToCreate.length).zip classIdsToCreate
                  |>.map (fun p =>
                    CourseOffering.mk (s.nextId + p.1) p.2 subjectId (some teacherId) isMandatory)
                .ok { s with
                        subjects := subjects'
                        offerings := afterUpdate ++ newOfferings
                        nextId := s.nextId + classIdsToCreate.length }

/-- One entry of the `attendanceData` array of `upsertStudentAttendance`.
The status-string validation of the JS code is subsumed by the `AttStatus`
type (the source checks membership in the same enum). -/
structure AttEntry where
  studentId : Nat
  status : AttStatus
  remarks : Option String
  deriving DecidableEq, Repr

/-- `findFirst` for the class of a `(standard, section)` pair in the active
academic year, shared by the student-attendance controllers. -/
def findActiveClass (s : Store) (standard sectionName : String) :
    Option SchoolClass :=
  s.classes.find? (fun c =>
    c.standard == standard && c.sectionName == sectionName &&
      s.academicYears.any (fun y =>
        y.academicYearId == c.academicYearId && y.isActive))

/-- One `prisma.studentAttendance.upsert` keyed by the
`student_date_attendance_unique` compound key: update `status`/`remarks` of
the matching row, or insert a fresh row.  Returns the new table and the
fresh-id counter. -/
def upsertStudentRow (rows : List StudentAttendance) (nid : Nat)
    (studentId classId date : Nat) (status : AttStatus)
    (remarks : Option String) : List StudentAttendance × Nat :=
  if rows.any (fun r => r.studentId == studentId && r.date == date) then
    (rows.map (fun r =>
      if r.studentId == studentId && r.date == date then
        { r with status := status, remarks := remarks }
      else r), nid)
  else
    (rows ++ [StudentAttendance.mk nid studentId classId date status remarks], nid + 1)

/-- `src/unnamed/part_012`, `upsertStudentAttendance`:
bulk-upsert one day's attendance for a class identified by
`(standard, section)`.  The JS code normalizes the incoming `"YYYY-MM-DD"`
string to UTC midnight via `new Date(date + 'T00:00:00.000Z')`; the model
accordingly takes the calendar `day` number and keys at `day * dayMs` (an
input carrying a time component fails that parse and is rejected). -/
def upsertStudentAttendance (s : Store) (standard sectionName : String)
    (day : Nat) (attendanceData : List AttEntry) : Except ApiError Store :=
  if attendanceData.isEmpty then
    .error (.validation "attendanceData must be a non-empty array.")
  else
    match findActiveClass s standard sectionName with
    | none => .error (.notFound "Class with standard and section not found in the active academic year.")
    | some activeClass =>
      let attendanceDate := day * dayMs
      let result := attendanceData.foldl
        (fun (acc : List StudentAttendance × Nat) rec =>
          upsertStudentRow acc.1 acc.2 rec.studentId activeClass.classId
            attendanceDate rec.status rec.remarks)
        (s.studentAttendance, s.nextId)
      .ok { s with studentAttendance := result.1, nextId := result.2 }

/-- One `prisma.employeeAttendance.upsert` keyed by the `employee_id_date`
compound key: `upd` is the `update:` payload, `row` the `create:` payload. -/
def upsertEmployeeRow (rows : List EmployeeAttendance)
    (upd : EmployeeAttendance → EmployeeAttendance) (row : EmployeeAttendance) :
    List EmployeeAttendance :=
  if rows.any (fun r => r.employeeId == row.employeeId && r.date == row.date) then
    rows.map (fun r =>
      if r.employeeId == row.employeeId && r.date == row.date then upd r else r)
  else
    rows ++ [row]

/-- `src/controllers/admin/employee/employeeAttendanceController.js`,
`markSingleAttendance`: upsert one employee-attendance row.  The JS code
keys the upsert by `new Date(date)` **verbatim** (no normalization to a day
boundary), so `date` here is the raw parsed timestamp in milliseconds. -/
def markSingleAttendance (s : Store) (employeeId : Nat) (date : Nat)
    (status : AttStatus) (checkIn checkOut : Option Nat)
    (reason : Option String) : Except ApiError Store :=
  let attendanceData : EmployeeAttendance :=
    EmployeeAttendance.mk employeeId date status .manual reason checkIn checkOut
  .ok { s with
          employeeAttendance :=
            upsertEmployeeRow s.employeeAttendance (fun _ => attendanceData)
              attendanceData }

/-- Fuel-indexed helper for `dateRange`; the fuel only forces termination and
is irrelevant once it exceeds the number of loop iterations
(`dateRangeAux_congr`). -/
def dateRangeAux : Nat → Nat → Nat → List Nat
  | 0, _, _ => []
  | fuel + 1, cur, endT =>
    if cur ≤ endT then cur :: dateRangeAux fuel (cur + dayMs) endT else []

/-- The date-range expansion loop shared by `markBulkAttendance`,
`updateLeaveStatus` and the student `createLeave`:
`for (dt = start; dt <= end; dt.setDate(dt.getDate() + 1))`.
Its defining equation is `dateRange_unfold` below. -/
def dateRange (cur endT : Nat) : List Nat :=
  dateRangeAux (endT + 1 - cur) cur endT

/-- `src/controllers/admin/employee/employeeAttendanceController.js`,
`markBulkAttendance`: expand `[startDate, endDate]` into one upsert per day
per employee, all in one transaction.  Returns the store plus
`result.length`, the number of upsert operations executed (reported in the
success message).  Like `markSingleAttendance`, the dates are the raw parsed
timestamps. -/
def markBulkAttendance (s : Store) (employeeIds : List Nat)
    (startDate endDate : Nat) (status : AttStatus)
    (checkIn checkOut : Option Nat) (reason : Option String) :
    Except ApiError (Store × Nat) :=
  if employeeIds.isEmpty then
    .error (.validation "A valid array of employee IDs is required.")
  else
    let range := dateRange startDate endDate
    if range.isEmpty then
      .error (.validation "Date range or employee selection is invalid.")
    else
      let ops := range.flatMap (fun d =>
        employeeIds.map (fun eid =>
          EmployeeAttendance.mk eid d status .manual_bulk reason checkIn checkOut))
      let rows := ops.foldl
        (fun rows row => upsertEmployeeRow rows (fun _ => row) row)
        s.employeeAttendance
      .ok ({ s with employeeAttendance := rows }, ops.length)

/-- `src/controllers/admin/employee/employeeController.js` (leave section),
`createLeaveRequest`: create a `pending` leave plus its initial history row
in one transaction.  The fresh leave id is drawn from the id counter. -/
def createLeaveRequest (s : Store) (employeeId : Nat)
    (startDate endDate : Nat) (reason : String) : Store :=
  let leave := EmployeeLeave.mk s.nextId employeeId startDate endDate reason .pending
  { s with
      leaves := s.leaves ++ [leave]
      leaveHistory := s.leaveHistory ++
        [LeaveHistory.mk leave.leaveId .pending (some "Leave request created.")]
      nextId := s.nextId + 1 }

/-- `src/controllers/admin/employee/employeeController.js` (leave section),
`updateLeaveStatus`: set a leave's status (any of pending/approved/rejected
passes the `includes` validation), append one history row, and on `approved`
upsert an `on_leave` attendance row for every day of the leave's range —
all in one transaction. -/
def updateLeaveStatus (s : Store) (leaveId : Nat) (status : LeaveStatus)
    (reason : Option String) : Except ApiError Store :=
  match s.leaves.find? (fun l => l.leaveId == leaveId) with
  | none => .error (.notFound "Leave request not found.")
  | some leave =>
    let leaves' := s.leaves.map (fun l =>
      if l.leaveId == leaveId then { l with status := status } else l)
    let history' := s.leaveHistory ++ [LeaveHistory.mk leaveId status reason]
    if status == .approved then
      let dates := dateRange leave.startDate leave.endDate
      let rows := dates.foldl
        (fun rows d =>
          upsertEmployeeRow rows
            (fun r => { r with
                          status := .on_leave
                          source := .manual
                          remarks := some ("Approved Leave: " ++ leave.reason) })
            (EmployeeAttendance.mk leave.employeeId d .on_leave .manual
              (some ("Approved Leave: " ++ leave.reason)) none none))
        s.employeeAttendance
      .ok { s with leaves := leaves', leaveHistory := history', employeeAttendance := rows }
    else
      .ok { s with leaves := leaves', leaveHistory := history' }

/-- `src/controllers/student/leave/newLeaveController.js`, `createLeave`:
a student-initiated leave goes straight to the attendance table — one
`on_leave` upsert per day of `[fromDate, toDate]`, in one transaction; no
leave entity and no status-history row is created.  The class id comes from
the student's latest admission (`findFirst` ordered by `admission_date`
descending, modelled as a maximum over the student's admissions). -/
def studentCreateLeave (s : Store) (userId : Nat) (fromDate toDate : Nat)
    (reason : String) : Except ApiError Store :=
  if toDate < fromDate then
    .error (.validation "The start date cannot be after the end date.")
  else
    match s.students.find? (fun st => st.userId == some userId) with
    | none => .error (.notFound "Student profile not found.")
    | some student =>
      let own := s.admissions.filter (fun a => a.studentId == student.studentId)
      match own.foldl
        (fun (best : Option Admission) a =>
          match best with
          | none => some a
          | some b => if b.admissionDate < a.admissionDate then some a else some b)
        none with
      | none => .error (.notFound "Could not find student's class enrollment.")
      | some admission =>
        let days := dateRange fromDate toDate
        let result := days.foldl
          (fun (acc : List StudentAttendance × Nat) d =>
            upsertStudentRow acc.1 acc.2 student.studentId admission.classId d
              .on_leave (some reason))
          (s.studentAttendance, s.nextId)
        .ok { s with studentAttendance := result.1, nextId := result.2 }

/-- Insertion step of the date-ascending sort used to model
`orderBy: { date: 'asc' }`. -/
def insertByDate (r : StudentAttendance) :
    List StudentAttendance → List StudentAttendance
  | [] => [r]
  | x :: xs => if r.date ≤ x.date then r :: x :: xs else x :: insertByDate r xs

/-- Date-ascending sort modelling the database's `orderBy: { date: 'asc' }`
(the rows it is applied to have pairwise distinct dates, so any stable or
unstable sort yields the same list). -/
def sortByDate : List StudentAttendance → List StudentAttendance
  | [] => []
  | x :: xs => insertByDate x (sortByDate xs)

/-- The period-collection loop of `cancelLeave`: walk the date-sorted rows,
start collecting at the row whose id is `targetId`, and stop at the first
gap (`next.date ≠ current.date + 1 day`), mirroring
`for (const day of allLeaveDaysForReason) { ... break; }`. -/
def collectRun (targetId : Nat) :
    List StudentAttendance → Bool → List Nat
  | [], _ => []
  | d :: rest, found =>
    let found' := found || d.attendanceId == targetId
    if found' then
      d.attendanceId ::
        (match rest with
         | [] => []
         | next :: _ =>
           if next.date == d.date + dayMs then collectRun targetId rest true
           else [])
    else collectRun targetId rest found'

/-- `src/controllers/student/leave/cancelLeaveController.js`, `cancelLeave`:
student-initiated cancellation of a future leave period.  `attendanceId` is
the id of the first leave day's attendance row; `todayMid` is "today at
midnight" (`today.setHours(0,0,0,0)` on the server clock). -/
def cancelLeave (s : Store) (userId : Nat) (attendanceId : Nat)
    (todayMid : Nat) : Except ApiError Store :=
  -- 1. the student record of the logged-in user
  match s.students.find? (fun st => st.userId == some userId) with
  | none => .error (.notFound "Student profile not found.")
  | some student =>
    -- 2. the attendance row that starts the leave
    match s.studentAttendance.find? (fun r => r.attendanceId == attendanceId) with
    | none => .error (.notFound "Leave record not found.")
    | some initialLeaveDay =>
      -- 3. ownership, 4. status and future-date validation
      if initialLeaveDay.studentId != student.studentId then
        .error (.forbidden "You are not authorized to cancel this leave request.")
      else if initialLeaveDay.status != .on_leave then
        .error (.invalidState "This record is not a leave record and cannot be cancelled.")
      else if initialLeaveDay.date ≤ todayMid then
        .error (.invalidState "Past or ongoing leave requests cannot be cancelled.")
      else
        -- 5. all same-remark on_leave rows from the start date, date-ascending
        let allLeaveDaysForReason := sortByDate (s.studentAttendance.filter (fun r =>
          r.studentId == student.studentId && r.status == .on_leave &&
            r.remarks == initialLeaveDay.remarks && initialLeaveDay.date ≤ r.date))
        let leavePeriodIds := collectRun attendanceId allLeaveDaysForReason false
        if leavePeriodIds.isEmpty then
          .error (.notFound "Could not identify the full leave period to cancel.")
        else
          -- 6. revert the identified rows to absent
          .ok { s with studentAttendance := s.studentAttendance.map (fun r =>
                  if leavePeriodIds.contains r.attendanceId then
                    { r with status := .absent,
                             remarks := some "Leave Cancelled by Student" }
                  else r) }

instance {ε α : Type} [DecidableEq ε] [DecidableEq α] :
    DecidableEq (Except ε α) := fun x y =>
  match x, y with
  | .ok a, .ok b =>
    if h : a = b then isTrue (by rw [h])
    else isFalse (fun hc => h (by cases hc; rfl))
  | .error a, .error b =>
    if h : a = b then isTrue (by rw [h])
    else isFalse (fun hc => h (by cases hc; rfl))
  | .ok _, .error _ => isFalse (fun hc => by cases hc)
  | .error _, .ok _ => isFalse (fun hc => by cases hc)

/-! ## Concrete stores used by witnesses and counterexamples -/

/-- A store with one empty class of capacity 2 in academic year 1. -/
def wS : Store :=
  { academicYears := [⟨1, true⟩]
    classes := [⟨1, 1, "10", "A", 2⟩] }

/-- The result of admitting students 10 and 11 into class 1 of `wS`
at `Date.now() = 7`. -/
def wS1' : Store :=
  { wS with admissions := [⟨10, 1, 7, 7⟩, ⟨11, 1, 7, 8⟩] }

/-- `wS` after the duplicate-id batch `[10, 10]` was admitted into class 1:
student 10 ends up with two admissions in academic year 1. -/
def wSdup' : Store :=
  { wS with admissions := [⟨10, 1, 7, 7⟩, ⟨10, 1, 7, 8⟩] }

/-- `wS` with student 10 already admitted into class 1 (academic year 1):
pre-state of the duplicate-admission rejection witness. -/
def wS3 : Store :=
  { wS with admissions := [⟨10, 1, 0, 0⟩] }

/-- A store where student 100 holds two admissions (classes 2 and 3, in the
academic years 2 and 3 respectively) and class 1 of year 1 has capacity 1:
the pre-state of the C1/C3 promotion counterexamples. -/
def cxPromote : Store :=
  { academicYears := [⟨1, true⟩, ⟨2, false⟩, ⟨3, false⟩]
    classes := [⟨1, 1, "10", "A", 1⟩, ⟨2, 2, "9", "A", 5⟩, ⟨3, 3, "8", "A", 5⟩]
    admissions := [⟨100, 2, 0, 0⟩, ⟨100, 3, 0, 1⟩] }

/-- `cxPromote` after `promoteStudents [100] 1`: both of student 100's
admission rows now point at class 1. -/
def cxPromote' : Store :=
  { cxPromote with admissions := [⟨100, 1, 0, 0⟩, ⟨100, 1, 0, 1⟩] }

/-- Pre-state of the C2 counterexample: student 100 is admitted in class 1
but holds a stale enrollment in offering 1, which belongs to class 3 —
not one of the student's admission classes. -/
def cxC2 : Store :=
  { academicYears := [⟨1, true⟩]
    classes := [⟨1, 1, "9", "A", 5⟩, ⟨2, 1, "10", "A", 5⟩, ⟨3, 1, "10", "B", 5⟩]
    admissions := [⟨100, 1, 0, 0⟩]
    offerings := [⟨1, 3, 1, none, true⟩, ⟨2, 2, 1, none, true⟩]
    enrollments := [⟨100, 1, .enrolled⟩] }

/-- `cxC2` after `promoteStudents [100] 2`: the stale enrollment in offering
1 survived the deletion step, so student 100's enrollments are not exactly
class 2's offerings. -/
def cxC2' : Store :=
  { cxC2 with
      admissions := [⟨100, 2, 0, 0⟩]
      enrollments := [⟨100, 1, .enrolled⟩, ⟨100, 2, .enrolled⟩] }

/-- Pre-state of the C2 witness: student 100 in class 1, enrolled in class
1's only offering; class 2 has two offerings. -/
def wC2 : Store :=
  { academicYears := [⟨1, true⟩]
    classes := [⟨1, 1, "9", "A", 5⟩, ⟨2, 1, "10", "A", 5⟩]
    admissions := [⟨100, 1, 0, 0⟩]
    offerings := [⟨1, 1, 7, none, true⟩, ⟨2, 2, 7, none, true⟩, ⟨3, 2, 8, none, false⟩]
    enrollments := [⟨100, 1, .enrolled⟩] }

/-- `wC2` after `promoteStudents [100] 2`: exactly one enrollment per
offering of class 2 and none for class 1. -/
def wC2' : Store :=
  { wC2 with
      admissions := [⟨100, 2, 0, 0⟩]
      enrollments := [⟨100, 2, .enrolled⟩, ⟨100, 3, .enrolled⟩] }

/-- The drop set of a subject synchronization: existing CourseOfferings of
the subject whose class is not among the target `(standard, sections)`
classes of the given academic year (mirrors step 5c of `editSubject`). -/
def offeringsToDrop (s : Store) (subjectId : Nat) (standard : String)
    (sections : List String) (yearId : Nat) : List CourseOffering :=
  (s.offerings.filter (fun o => o.subjectId == subjectId)).filter
    (fun o => !(((s.classes.filter (fun c =>
        c.standard == standard && sections.contains c.sectionName &&
          c.academicYearId == yearId)).map (fun c => c.classId)).contains o.classId))

def dropEnrollCount (s : Store) (subjectId : Nat) (standard : String)
    (sections : List String) (yearId : Nat) : Nat :=
  (s.enrollments.filter (fun e =>
    ((offeringsToDrop s subjectId standard sections yearId).map
      (fun o => o.offeringId)).contains e.offeringId)).length

/-- Witness store for C4: subject "Physics" offered to standard 10 sections
A and B with 5 students enrolled in the section-A offering (the scenario of
spec section 8). -/
def wC4 : Store :=
  { academicYears := [⟨1, true⟩]
    subjects := [⟨1, "Physics"⟩]
    employees := [⟨5⟩]
    classes := [⟨1, 1, "10", "A", 40⟩, ⟨2, 1, "10", "B", 40⟩, ⟨3, 1, "10", "C", 40⟩]
    offerings := [⟨1, 1, 1, some 5, true⟩, ⟨2, 2, 1, some 5, true⟩]
    enrollments := [⟨11, 1, .enrolled⟩, ⟨12, 1, .enrolled⟩, ⟨13, 1, .enrolled⟩,
                    ⟨14, 1, .enrolled⟩, ⟨15, 1, .enrolled⟩] }

/-- The `(employee_id, date)` key predicate of `employee_attendance`. -/
def empKey (E d : Nat) : EmployeeAttendance → Bool :=
  fun r => r.employeeId == E && r.date == d

/-- The `(student_id, date)` key predicate of `student_attendance`. -/
def stuKey (P d : Nat) : StudentAttendance → Bool :=
  fun r => r.studentId == P && r.date == d

/-- Intermediate store of the C5 witness: `wS` after upserting
(student 10, day 3, present). -/
def wS5a : Store :=
  { academicYears := [⟨1, true⟩]
    classes := [⟨1, 1, "10", "A", 2⟩]
    studentAttendance := [⟨0, 10, 1, 3 * dayMs, .present, none⟩]
    nextId := 1 }

/-- Final store of the C5 student witness: the second upsert overwrote the
same row (same id, last-write-wins). -/
def wS5b : Store :=
  { academicYears := [⟨1, true⟩]
    classes := [⟨1, 1, "10", "A", 2⟩]
    studentAttendance := [⟨0, 10, 1, 3 * dayMs, .late, some "x"⟩]
    nextId := 1 }

/-- Final store of the C5 bulk witness: marking employee 7 present over days
1..3 produced exactly three rows. -/
def wS5c : Store :=
  { academicYears := [⟨1, true⟩]
    classes := [⟨1, 1, "10", "A", 2⟩]
    employeeAttendance :=
      [⟨7, 1 * dayMs, .present, .manual_bulk, none, none, none⟩,
       ⟨7, 2 * dayMs, .present, .manual_bulk, none, none, none⟩,
       ⟨7, 3 * dayMs, .present, .manual_bulk, none, none, none⟩] }

/-- Store after `markSingleAttendance` for employee 7 at timestamp 0
(midnight UTC of day 0). -/
def cxC6a : Store :=
  { academicYears := [⟨1, true⟩]
    classes := [⟨1, 1, "10", "A", 2⟩]
    employeeAttendance := [⟨7, 0, .present, .manual, none, none, none⟩] }

/-- Store after a second `markSingleAttendance` for employee 7 at timestamp
36000000 (10:00 UTC of the same day 0): a second, distinct row. -/
def cxC6b : Store :=
  { academicYears := [⟨1, true⟩]
    classes := [⟨1, 1, "10", "A", 2⟩]
    employeeAttendance := [⟨7, 0, .present, .manual, none, none, none⟩,
                           ⟨7, 36000000, .present, .manual, none, none, none⟩] }

/-- Result store of the C7 witness: leave 0 (employee 7, days 10..12,
reason "flu") created and approved — 3 `on_leave` attendance rows and 2
history rows. -/
def wS7 : Store :=
  { academicYears := [⟨1, true⟩]
    classes := [⟨1, 1, "10", "A", 2⟩]
    leaves := [⟨0, 7, 10 * dayMs, 12 * dayMs, "flu", .approved⟩]
    leaveHistory := [⟨0, .pending, some "Leave request created."⟩,
                     ⟨0, .approved, some "ok"⟩]
    employeeAttendance :=
      [⟨7, 10 * dayMs, .on_leave, .manual, some "Approved Leave: flu", none, none⟩,
       ⟨7, 11 * dayMs, .on_leave, .manual, some "Approved Leave: flu", none, none⟩,
       ⟨7, 12 * dayMs, .on_leave, .manual, some "Approved Leave: flu", none, none⟩]
    nextId := 1 }

/-- Apply a sequence of `updateLeaveStatus` transitions to one leave,
stopping at the first error (used to state the K-transition history count
of claim C8). -/
def applyTransitions (leaveId : Nat) :
    Store → List (LeaveStatus × Option String) → Except ApiError Store
  | s, [] => .ok s
  | s, t :: ts =>
    match updateLeaveStatus s leaveId t.1 t.2 with
    | .ok s' => applyTransitions leaveId s' ts
    | .error e => .error e

/-- A store holding one approved leave (id 0) with its two history rows:
pre-state of the C8 counterexample. -/
def cxC8 : Store :=
  { academicYears := [⟨1, true⟩]
    leaves := [⟨0, 7, 10 * dayMs, 12 * dayMs, "flu", .approved⟩]
    leaveHistory := [⟨0, .pending, some "Leave request created."⟩,
                     ⟨0, .approved, some "ok"⟩]
    nextId := 1 }

/-- `cxC8` after `updateLeaveStatus(0, pending)`: the approved leave went
back to `pending`. -/
def cxC8' : Store :=
  { cxC8 with
      leaves := [⟨0, 7, 10 * dayMs, 12 * dayMs, "flu", .pending⟩]
      leaveHistory := [⟨0, .pending, some "Leave request created."⟩,
                       ⟨0, .approved, some "ok"⟩,
                       ⟨0, .pending, none⟩] }

/-- Result of creating a leave and applying the three transitions
approved, pending, approved: four history rows. -/
def wC8' : Store :=
  { academicYears := [⟨1, true⟩]
    classes := [⟨1, 1, "10", "A", 2⟩]
    leaves := [⟨0, 7, 10 * dayMs, 12 * dayMs, "flu", .approved⟩]
    leaveHistory := [⟨0, .pending, some "Leave request created."⟩,
                     ⟨0, .approved, none⟩,
                     ⟨0, .pending, none⟩,
                     ⟨0, .approved, none⟩]
    employeeAttendance :=
      [⟨7, 10 * dayMs, .on_leave, .manual, some "Approved Leave: flu", none, none⟩,
       ⟨7, 11 * dayMs, .on_leave, .manual, some "Approved Leave: flu", none, none⟩,
       ⟨7, 12 * dayMs, .on_leave, .manual, some "Approved Leave: flu", none, none⟩]
    nextId := 1 }

/-- Pre-state of the C10 witness: student 100 (login user 55) admitted in
class 1, no attendance rows. -/
def wC10 : Store :=
  { academicYears := [⟨1, true⟩]
    classes := [⟨1, 1, "10", "A", 2⟩]
    students := [⟨100, some 55⟩]
    admissions := [⟨100, 1, 5, 0⟩] }

/-- `wC10` after the student-initiated leave for days 4..6: three `on_leave`
attendance rows and nothing else. -/
def wC10' : Store :=
  { wC10 with
      studentAttendance :=
        [⟨0, 100, 1, 4 * dayMs, .on_leave, some "sick"⟩,
         ⟨1, 100, 1, 5 * dayMs, .on_leave, some "sick"⟩,
         ⟨2, 100, 1, 6 * dayMs, .on_leave, some "sick"⟩]
      nextId := 3 }

/-- Pre-state of the C9 witness: student 100 (login user 55) has a two-day
leave run (rows 1, 2 at days 10-11, remark "trip"), a differently-remarked
leave row at day 12 and a non-contiguous same-remark leave row at day 14. -/
def wC9 : Store :=
  { academicYears := [⟨1, true⟩]
    classes := [⟨1, 1, "10", "A", 5⟩]
    students := [⟨100, some 55⟩]
    admissions := [⟨100, 1, 5, 0⟩]
    studentAttendance :=
      [⟨1, 100, 1, 10 * dayMs, .on_leave, some "trip"⟩,
       ⟨2, 100, 1, 11 * dayMs, .on_leave, some "trip"⟩,
       ⟨3, 100, 1, 12 * dayMs, .on_leave, some "sick"⟩,
       ⟨4, 100, 1, 14 * dayMs, .on_leave, some "trip"⟩]
    nextId := 5 }

/-- `wC9` after cancelling the leave starting at row 1: exactly rows 1 and 2
are reverted to `absent` with the cancellation remark; the differently-
remarked row 3 and the non-contiguous row 4 are untouched. -/
def wC9' : Store :=
  { wC9 with
      studentAttendance :=
        [⟨1, 100, 1, 10 * dayMs, .absent, some "Leave Cancelled by Student"⟩,
         ⟨2, 100, 1, 11 * dayMs, .absent, some "Leave Cancelled by Student"⟩,
         ⟨3, 100, 1, 12 * dayMs, .on_leave, some "sick"⟩,
         ⟨4, 100, 1, 14 * dayMs, .on_leave, some "trip"⟩] }

/-- Pre-state for the C1 promote witness: the promoted student 10 holds one
admission (class 2), while the non-promoted bystander 100 legitimately holds
admissions in two academic years (classes 2 and 3) — a store the amended
claim covers but a whole-table single-admission hypothesis would exclude. -/
def wC1b : Store :=
  { academicYears := [⟨1, true⟩, ⟨2, false⟩]
    classes := [⟨1, 1, "10", "A", 1⟩, ⟨2, 1, "9", "A", 2⟩, ⟨3, 2, "9", "B", 2⟩]
    admissions := [⟨100, 2, 5, 0⟩, ⟨100, 3, 6, 1⟩, ⟨10, 2, 5, 2⟩] }

/-- `wC1b` after promoting student 10 into class 1: only 10's row moves, the
bystander's two rows stay put, and every class is within capacity. -/
def wC1b' : Store :=
  { wC1b with admissions := [⟨100, 2, 5, 0⟩, ⟨100, 3, 6, 1⟩, ⟨10, 1, 5, 2⟩] }

/-! ## General list lemmas used by the invariant proofs -/

theorem length_filter_mono {α} (p q : α → Bool) (l : List α)
    (h : ∀ a ∈ l, p a = true → q a = true) :
    (l.filter p).length ≤ (l.filter q).length := by
  induction l with
  | nil => simp
  | cons x xs ih =>
    have ih' := ih (fun a ha => h a (List.mem_cons_of_mem x ha))
    simp only [List.filter_cons]
    cases hp : p x with
    | true =>
      have hq := h x (List.mem_cons_self x xs) hp
      simp [hq]
      omega
    | false =>
      cases hq : q x <;> simp <;> omega

theorem length_filter_or_le {α} (p q : α → Bool) (l : List α) :
    (l.filter (fun a => p a || q a)).length ≤
      (l.filter p).length + (l.filter q).length := by
  induction l with
  | nil => simp
  | cons x xs ih =>
    simp only [List.filter_cons]
    cases hp : p x <;> cases hq : q x <;> simp [hp, hq] <;> omega

theorem length_filter_of_map {α β} (f : α → β) (p : β → Bool) (l : List α) :
    ((l.map f).filter p).length = (l.filter (fun a => p (f a))).length := by
  induction l with
  | nil => rfl
  | cons x xs ih =>
    simp only [List.map_cons, List.filter_cons]
    by_cases h : p (f x) <;> simp [h, ih]

/-- Two elements of a list that is pairwise distinct on a key and that share
the key are the same element. -/
theorem pairwise_key_unique {α} (key : α → Nat) (l : List α)
    (h : l.Pairwise (fun a b => key a ≠ key b)) :
    ∀ a ∈ l, ∀ b ∈ l, key a = key b → a = b := by
  induction l with
  | nil => intro a ha; simp at ha
  | cons x xs ih =>
    rw [List.pairwise_cons] at h
    intro a ha b hb hk
    rcases List.mem_cons.mp ha with rfl | ha' <;>
      rcases List.mem_cons.mp hb with rfl | hb'
    · rfl
    · exact absurd hk (h.1 b hb')
    · exact absurd hk.symm (h.1 a ha')
    · exact ih h.2 a ha' b hb' hk

/-- In a list pairwise distinct on a key, at most one element matches any
given key value. -/
theorem length_filter_key_le_one {α} (key : α → Nat) (l : List α)
    (h : l.Pairwise (fun a b => key a ≠ key b)) (k : Nat) :
    (l.filter (fun a => key a == k)).length ≤ 1 := by
  induction l with
  | nil => simp
  | cons x xs ih =>
    rw [List.pairwise_cons] at h
    by_cases hx : key x = k
    · have hnone : xs.filter (fun a => key a == k) = [] := by
        apply List.filter_eq_nil_iff.mpr
        intro a ha
        simp only [beq_iff_eq]
        exact fun hak => h.1 a ha (hx ▸ hak ▸ rfl)
      simp [List.filter_cons, hx, hnone]
    · simp only [List.filter_cons, beq_iff_eq, hx, if_false]
      exact ih h.2

/-- If every student holds at most one admission row (pairwise distinct
student ids), the rows whose student appears in `ids` number at most
`ids.length`. -/
theorem length_filter_contains_le (adm : List Admission) (ids : List Nat)
    (h : ∀ S ∈ ids, (adm.filter (fun a => a.studentId == S)).length ≤ 1) :
    (adm.filter (fun a => ids.contains a.studentId)).length ≤ ids.length := by
  induction ids with
  | nil => simp
  | cons x rest ih =>
    have hsplit : (adm.filter (fun a => (x :: rest).contains a.studentId)).length ≤
        (adm.filter (fun a => a.studentId == x)).length +
          (adm.filter (fun a => rest.contains a.studentId)).length := by
      have := length_filter_or_le (fun a => a.studentId == x)
        (fun a => rest.contains a.studentId) adm
      exact this
    have h1 := h x (List.mem_cons_self x rest)
    have h2 := ih (fun S hS => h S (List.mem_cons_of_mem x hS))
    simp only [List.length_cons]
    omega

/-! ## The date-range loop: fuel irrelevance and closed form -/

theorem dateRangeAux_zero (cur endT : Nat) : dateRangeAux 0 cur endT = [] := rfl

theorem dateRangeAux_succ (f cur endT : Nat) :
    dateRangeAux (f + 1) cur endT =
      if cur ≤ endT then cur :: dateRangeAux f (cur + dayMs) endT else [] := rfl

theorem dateRangeAux_congr :
    ∀ f g cur endT, endT + 1 - cur ≤ f → endT + 1 - cur ≤ g →
      dateRangeAux f cur endT = dateRangeAux g cur endT := by
  intro f
  induction f with
  | zero =>
    intro g cur endT hf _
    have hlt : endT < cur := by omega
    cases g with
    | zero => rfl
    | succ g =>
      rw [dateRangeAux_zero, dateRangeAux_succ, if_neg (by omega)]
  | succ f ih =>
    intro g cur endT hf hg
    cases g with
    | zero =>
      have hlt : endT < cur := by omega
      rw [dateRangeAux_zero, dateRangeAux_succ, if_neg (by omega)]
    | succ g =>
      rw [dateRangeAux_succ, dateRangeAux_succ]
      by_cases hle : cur ≤ endT
      · rw [if_pos hle, if_pos hle]
        have hday : 1 ≤ dayMs := by decide
        have := ih g (cur + dayMs) endT (by omega) (by omega)
        rw [this]
      · rw [if_neg hle, if_neg hle]

/-- The loop equation of `dateRange`, matching the JS
`for (dt = start; dt <= end; dt.setDate(dt.getDate()+1))` literally. -/
theorem dateRange_unfold (cur endT : Nat) :
    dateRange cur endT =
      if cur ≤ endT then cur :: dateRange (cur + dayMs) endT else [] := by
  unfold dateRange
  by_cases hle : cur ≤ endT
  · have h1 : endT + 1 - cur = (endT - cur) + 1 := by omega
    rw [h1, dateRangeAux_succ]
    rw [if_pos hle, if_pos hle]
    have hday : 1 ≤ dayMs := by decide
    have := dateRangeAux_congr (endT - cur) (endT + 1 - (cur + dayMs))
      (cur + dayMs) endT (by omega) (by omega)
    rw [this]
  · have h1 : endT + 1 - cur = 0 ∨ ∃ k, endT + 1 - cur = k + 1 := by
      rcases Nat.eq_zero_or_pos (endT + 1 - cur) with h | h
      · exact Or.inl h
      · exact Or.inr ⟨endT - cur, by omega⟩
    rcases h1 with h1 | ⟨k, h1⟩
    · rw [h1, dateRangeAux_zero, if_neg hle]
    · rw [h1, dateRangeAux_succ, if_neg hle, if_neg hle]

/-- Closed form of the loop length:
`floor((end - start) / day) + 1` iterations when `start ≤ end`. -/
theorem dateRange_length (cur endT : Nat) (h : cur ≤ endT) :
    (dateRange cur endT).length = (endT - cur) / dayMs + 1 := by
  have hday : 1 ≤ dayMs := by decide
  -- strong induction on endT - cur
  generalize hm : endT - cur = m
  induction m using Nat.strong_induction_on generalizing cur with
  | _ m ih =>
    rw [dateRange_unfold, if_pos h]
    by_cases hstep : cur + dayMs ≤ endT
    · have h2 : endT - (cur + dayMs) = m - dayMs := by omega
      have hlt : m - dayMs < m := by omega
      rw [List.length_cons, ih (m - dayMs) hlt (cur + dayMs) hstep h2]
      have : m / dayMs = (m - dayMs) / dayMs + 1 := by
        rcases Nat.exists_eq_add_of_le (show dayMs ≤ m by omega) with ⟨k, hk⟩
        subst hk
        rw [Nat.add_sub_cancel_left, Nat.add_comm, Nat.add_div_right _ (by omega)]
      omega
    · have hempty : dateRange (cur + dayMs) endT = [] := by
        rw [dateRange_unfold, if_neg hstep]
      rw [hempty]
      have : m / dayMs = 0 := Nat.div_eq_of_lt (by omega)
      simp [this]

theorem range_map_shift (cur : Nat) (K : Nat) :
    cur :: (List.range K).map (fun i => (cur + dayMs) + i * dayMs) =
      (List.range (K + 1)).map (fun i => cur + i * dayMs) := by
  conv_rhs => rw [List.range_succ_eq_map]
  simp only [List.map_cons, List.map_map, List.cons.injEq]
  constructor
  · simp
  · apply List.map_congr_left
    intro i _
    simp only [Function.comp_apply, Nat.succ_eq_add_one]
    ring

/-- The loop visits exactly the days `cur + i * dayMs` for
`i = 0 .. (endT - cur) / dayMs`. -/
theorem dateRange_get (cur endT : Nat) (h : cur ≤ endT) :
    dateRange cur endT =
      (List.range ((endT - cur) / dayMs + 1)).map (fun i => cur + i * dayMs) := by
  have hday : 1 ≤ dayMs := by decide
  generalize hm : endT - cur = m
  induction m using Nat.strong_induction_on generalizing cur with
  | _ m ih =>
    rw [dateRange_unfold, if_pos h]
    by_cases hstep : cur + dayMs ≤ endT
    · have h2 : endT - (cur + dayMs) = m - dayMs := by omega
      have hlt : m - dayMs < m := by omega
      rw [ih (m - dayMs) hlt (cur + dayMs) hstep h2]
      have hdiv : m / dayMs = (m - dayMs) / dayMs + 1 := by
        rcases Nat.exists_eq_add_of_le (show dayMs ≤ m by omega) with ⟨k, hk⟩
        subst hk
        rw [Nat.add_sub_cancel_left, Nat.add_comm, Nat.add_div_right _ (by omega)]
      rw [hdiv]
      exact range_map_shift cur ((m - dayMs) / dayMs + 1)
    · have hempty : dateRange (cur + dayMs) endT = [] := by
        rw [dateRange_unfold, if_neg hstep]
      rw [hempty]
      have hz : m / dayMs = 0 := Nat.div_eq_of_lt (by omega)
      simp [hz, List.range_succ]

/-- Midnight-aligned instance: the loop from day `a` to day `b` (both UTC
midnights) visits exactly the `b - a + 1` midnights `a, a+1, ..., b`. -/
theorem dateRange_days (a b : Nat) (h : a ≤ b) :
    dateRange (a * dayMs) (b * dayMs) =
      (List.range (b - a + 1)).map (fun i => (a + i) * dayMs) := by
  have hday : 1 ≤ dayMs := by decide
  have hle : a * dayMs ≤ b * dayMs := Nat.mul_le_mul_right _ h
  rw [dateRange_get _ _ hle]
  have hsub : b * dayMs - a * dayMs = (b - a) * dayMs := by
    rw [Nat.sub_mul]
  rw [hsub, Nat.mul_div_cancel _ (by omega)]
  apply List.map_congr_left
  intro i _
  ring

/-! ## C1: the capacity invariant -/


theorem newAdmissions_filter_count (ids : List Nat) (cid now x : Nat) :
    ((((List.range ids.length).zip ids).map
        (fun p => Admission.mk p.2 cid now (now + p.1))).filter
      (fun a => a.classId == x)).length = if cid = x then ids.length else 0 := by
  by_cases h : cid = x
  · subst h
    rw [if_pos rfl, List.filter_eq_self.mpr]
    · simp [List.length_map, List.length_zip]
    · intro a ha
      rcases List.mem_map.mp ha with ⟨p, _, rfl⟩
      simp
  · rw [if_neg h, List.filter_eq_nil_iff.mpr]
    · rfl
    · intro a ha
      rcases List.mem_map.mp ha with ⟨p, _, rfl⟩
      simp [h]

theorem add_ok_capacity (s s' : Store) (cid : Nat) (ids : List Nat) (now : Nat)
    (hkeys : s.classes.Pairwise (fun a b => a.classId ≠ b.classId))
    (hinv : capacityInv s)
    (hok : addStudentsToClass s cid ids now = .ok s') :
    capacityInv s' := by
  unfold addStudentsToClass at hok
  split at hok
  · simp at hok
  · split at hok
    · simp at hok
    next classData hfind =>
      dsimp only at hok
      split at hok
      · simp at hok
      next hcap =>
        split at hok
        next hdup =>
          simp only [Except.ok.injEq] at hok
          subst hok
          intro c hc
          dsimp only at hc ⊢
          unfold countAdmissions
          dsimp only
          simp only [List.filter_append, List.length_append,
            newAdmissions_filter_count]
          by_cases hcc : cid = c.classId
          · have hmem := List.mem_of_find?_eq_some hfind
            have hprop := List.find?_some hfind
            simp only [beq_iff_eq] at hprop
            have hceq : c = classData :=
              pairwise_key_unique (fun c => c.classId) s.classes hkeys c hc
                classData hmem (by dsimp only; rw [hprop, ← hcc])
            subst hceq
            rw [if_pos hcc]
            simp only [not_lt] at hcap
            unfold countAdmissions at hcap
            rw [← hcc] at hprop
            rw [hcc] at hcap
            omega
          · rw [if_neg hcc]
            have := hinv c hc
            unfold countAdmissions at this
            omega
        · simp at hok

theorem promote_ok_capacity (s s' : Store) (ids : List Nat) (cid : Nat)
    (hkeys : s.classes.Pairwise (fun a b => a.classId ≠ b.classId))
    (hone : ∀ S ∈ ids, (s.admissions.filter (fun a => a.studentId == S)).length ≤ 1)
    (hinv : capacityInv s)
    (hok : promoteStudents s ids cid = .ok s') :
    capacityInv s' := by
  unfold promoteStudents at hok
  split at hok
  · simp at hok
  · split at hok
    · simp at hok
    next targetClass hfind =>
      dsimp only at hok
      split at hok
      · simp at hok
      next hcap =>
        simp only [Except.ok.injEq] at hok
        subst hok
        intro c hc
        dsimp only at hc ⊢
        unfold countAdmissions
        dsimp only
        rw [length_filter_of_map]
        by_cases hcc : cid = c.classId
        · have hmem := List.mem_of_find?_eq_some hfind
          have hprop := List.find?_some hfind
          simp only [beq_iff_eq] at hprop
          have hceq : c = targetClass :=
            pairwise_key_unique (fun x => x.classId) s.classes hkeys c hc
              targetClass hmem (by dsimp only; rw [hprop, ← hcc])
          subst hceq
          have hmono : (s.admissions.filter (fun a =>
              ((if ids.contains a.studentId then { a with classId := cid } else a).classId
                == c.classId))).length ≤
              (s.admissions.filter (fun a =>
                ids.contains a.studentId || a.classId == c.classId)).length := by
            apply length_filter_mono
            intro a _ hpa
            cases hcon : ids.contains a.studentId
            · simp at hcon
              simp [hcon] at hpa
              simp [hpa]
            · simp at hcon
              simp [hcon]
          have hor := length_filter_or_le (fun a => ids.contains a.studentId)
            (fun a => a.classId == c.classId) s.admissions
          have hcontains := length_filter_contains_le s.admissions ids hone
          simp only [not_lt] at hcap
          unfold countAdmissions at hcap
          rw [← hcc] at *
          omega
        · have hmono : (s.admissions.filter (fun a =>
              ((if ids.contains a.studentId then { a with classId := cid } else a).classId
                == c.classId))).length ≤
              (s.admissions.filter (fun a => a.classId == c.classId)).length := by
            apply length_filter_mono
            intro a _ hpa
            cases hcon : ids.contains a.studentId
            · simp at hcon
              simp [hcon] at hpa
              simp [hpa]
            · simp at hcon
              simp [hcon] at hpa
              exact absurd hpa hcc
          have := hinv c hc
          unfold countAdmissions at this
          omega

theorem add_over_capacity (s : Store) (cid : Nat) (ids : List Nat) (now : Nat)
    (c : SchoolClass)
    (hfind : s.classes.find? (fun x => x.classId == cid) = some c)
    (hne : ids ≠ []) (hover : c.capacity < countAdmissions s cid + ids.length) :
    addStudentsToClass s cid ids now = .error (.capacityExceeded c.capacity) := by
  unfold addStudentsToClass
  rw [if_neg (by simp [hne]), hfind]
  dsimp only
  rw [if_pos hover]

theorem promote_over_capacity (s : Store) (cid : Nat) (ids : List Nat)
    (c : SchoolClass)
    (hfind : s.classes.find? (fun x => x.classId == cid) = some c)
    (hne : ids ≠ []) (hover : c.capacity < countAdmissions s cid + ids.length) :
    promoteStudents s ids cid = .error (.capacityExceeded c.capacity) := by
  unfold promoteStudents
  rw [if_neg (by simp [hne]), hfind]
  dsimp only
  rw [if_pos hover]

/-- **C1** (amended).  For every class C the capacity invariant
`count(admissions in C) <= C.capacity` is preserved by `addStudentsToClass`,
and by `promoteStudents` *provided every promoted (listed) student holds at
most one admission row* — students outside the batch may hold any number of
admissions; and an attempt with `current_admission_count + incoming_count >
capacity` is rejected by both operations as a whole, leaving the store
unchanged (the error result models the rolled-back transaction: no Admission
row inserted, no enrollment changed).  As literally stated the claim fails
for `promoteStudents` (see `claim_C1_counterexample`): the bulk
`admission.updateMany` repoints *all* admission rows of each listed student
at the target class while the pre-check counts only the listed students. -/
theorem claim_C1 (s : Store) (cid : Nat) (ids : List Nat) (now : Nat)
    (hkeys : s.classes.Pairwise (fun a b => a.classId ≠ b.classId))
    (hinv : capacityInv s) :
    (∀ s', addStudentsToClass s cid ids now = .ok s' → capacityInv s') ∧
    ((∀ S ∈ ids, (s.admissions.filter (fun a => a.studentId == S)).length ≤ 1) →
      ∀ s', promoteStudents s ids cid = .ok s' → capacityInv s') ∧
    (∀ c, s.classes.find? (fun x => x.classId == cid) = some c →
      ids ≠ [] → c.capacity < countAdmissions s cid + ids.length →
      addStudentsToClass s cid ids now = .error (.capacityExceeded c.capacity) ∧
      promoteStudents s ids cid = .error (.capacityExceeded c.capacity)) :=
  ⟨fun s' hok => add_ok_capacity s s' cid ids now hkeys hinv hok,
   fun hone s' hok => promote_ok_capacity s s' ids cid hkeys hone hinv hok,
   fun c hfind hne hover =>
     ⟨add_over_capacity s cid ids now c hfind hne hover,
      promote_over_capacity s cid ids c hfind hne hover⟩⟩

/-- Counterexample to C1 as stated: in `cxPromote`, student 100 holds
admissions in two academic years (classes 2 and 3); promoting student 100
into class 1 (capacity 1, currently empty) passes the capacity pre-check
(`0 + 1 <= 1`) yet moves *both* admission rows into class 1, leaving it with
2 admissions — the capacity invariant is violated after a successful
promotion. -/
theorem claim_C1_counterexample :
    capacityInv cxPromote ∧
    promoteStudents cxPromote [100] 1 = .ok cxPromote' ∧
    ¬ capacityInv cxPromote' :=
  ⟨by decide, by decide, by decide⟩

/-- Witness for `claim_C1`: its hypotheses are satisfiable — a concrete
admission of students 10, 11 into the empty class 1 (capacity 2) preserves
the invariant; promoting the single-admission student 10 in `wC1b` (where
the non-promoted student 100 holds admissions in two academic years)
preserves it; and a concrete 3-student batch against capacity 2 is rejected
with `capacityExceeded`. -/
theorem claim_C1_witness :
    capacityInv wS1' ∧ capacityInv wC1b' ∧
      addStudentsToClass wS 1 [10, 11, 12] 7 = .error (.capacityExceeded 2) :=
  ⟨(claim_C1 wS 1 [10, 11] 7 (by decide) (by decide)).1 wS1' (by decide),
   (claim_C1 wC1b 1 [10] 7 (by decide) (by decide)).2.1 (by decide) wC1b' (by decide),
   ((claim_C1 wS 1 [10, 11, 12] 7 (by decide) (by decide)).2.2
     ⟨1, 1, "10", "A", 2⟩ (by decide) (by decide) (by decide)).1⟩

/-! ## C3: the one-admission-per-year invariant -/


theorem pairwise_studentId_oneAdmission (s : Store)
    (h : s.admissions.Pairwise (fun a b => a.studentId ≠ b.studentId)) :
    oneAdmissionPerYear s := by
  intro a ha y hy
  have hmono : (s.admissions.filter (fun b =>
      b.studentId == a.studentId &&
        s.classes.any (fun c =>
          c.classId == b.classId && c.academicYearId == y.academicYearId))).length ≤
      (s.admissions.filter (fun b => b.studentId == a.studentId)).length := by
    apply length_filter_mono
    intro b _ hb
    exact (Bool.and_eq_true _ _ |>.mp hb).1
  have hone := length_filter_key_le_one (fun b => b.studentId) s.admissions h a.studentId
  omega

theorem promote_ok_oneAdmission (s s' : Store) (ids : List Nat) (cid : Nat)
    (hone : s.admissions.Pairwise (fun a b => a.studentId ≠ b.studentId))
    (hok : promoteStudents s ids cid = .ok s') :
    oneAdmissionPerYear s' := by
  unfold promoteStudents at hok
  split at hok
  · simp at hok
  · split at hok
    · simp at hok
    next targetClass hfind =>
      dsimp only at hok
      split at hok
      · simp at hok
      next hcap =>
        simp only [Except.ok.injEq] at hok
        subst hok
        apply pairwise_studentId_oneAdmission
        dsimp only
        rw [List.pairwise_map]
        apply hone.imp
        intro a b hab
        cases h1 : ids.contains a.studentId <;> cases h2 : ids.contains b.studentId <;>
          simp [h1, h2] at * <;> simp [*]

theorem zip_range_filter_snd (st : Nat) :
    ∀ (ids rs : List Nat), rs.length = ids.length →
      ((rs.zip ids).filter (fun p => p.2 == st)).length =
        (ids.filter (fun x => x == st)).length := by
  intro ids
  induction ids with
  | nil => intro rs h; simp
  | cons x xs ih =>
    intro rs h
    cases rs with
    | nil => simp at h
    | cons r rest =>
      simp only [List.zip_cons_cons, List.filter_cons]
      by_cases hx : x = st
      · simp only [hx, beq_self_eq_true, if_true, List.length_cons]
        rw [ih rest (by simpa using h)]
      · simp only [beq_iff_eq, hx, if_false]
        exact ih rest (by simpa using h)

theorem new_admissions_year_count (s : Store) (ids : List Nat)
    (cid now st y : Nat) :
    ((((List.range ids.length).zip ids).map
        (fun p => Admission.mk p.2 cid now (now + p.1))).filter
      (fun b => b.studentId == st &&
        s.classes.any (fun c =>
          c.classId == b.classId && c.academicYearId == y))).length
    = if s.classes.any (fun c => c.classId == cid && c.academicYearId == y)
      then (ids.filter (fun x => x == st)).length else 0 := by
  rw [length_filter_of_map]
  by_cases hP : s.classes.any (fun c => c.classId == cid && c.academicYearId == y)
  · rw [if_pos hP]
    have hcong : ((List.range ids.length).zip ids).filter
        (fun p => ((fun q => Admission.mk q.2 cid now (now + q.1)) p).studentId == st &&
          s.classes.any (fun c =>
            c.classId == ((fun q => Admission.mk q.2 cid now (now + q.1)) p).classId &&
              c.academicYearId == y)) =
        ((List.range ids.length).zip ids).filter (fun p => p.2 == st) := by
      apply List.filter_congr
      intro p _
      dsimp only
      rw [hP, Bool.and_true]
    rw [hcong, zip_range_filter_snd st ids _ (by simp)]
  · rw [if_neg hP, List.filter_eq_nil_iff.mpr, List.length_nil]
    intro p _
    dsimp only
    simp only [Bool.not_eq_true] at hP ⊢
    rw [hP, Bool.and_false]

theorem add_ok_oneAdmission (s s' : Store) (cid : Nat) (ids : List Nat) (now : Nat)
    (hkeys : s.classes.Pairwise (fun a b => a.classId ≠ b.classId))
    (hnodup : ids.Nodup)
    (hinv : oneAdmissionPerYear s)
    (hok : addStudentsToClass s cid ids now = .ok s') :
    oneAdmissionPerYear s' := by
  unfold addStudentsToClass at hok
  split at hok
  · simp at hok
  · split at hok
    · simp at hok
    next classData hfind =>
      dsimp only at hok
      split at hok
      · simp at hok
      next hcap =>
        split at hok
        next hdup =>
          simp only [Except.ok.injEq] at hok
          subst hok
          intro a ha y hy
          dsimp only at ha hy ⊢
          rw [List.filter_append, List.length_append, new_admissions_year_count]
          -- the pre-existing rows matching (student of a, year y)
          have hold : (s.admissions.filter (fun b =>
              b.studentId == a.studentId && s.classes.any (fun c =>
                c.classId == b.classId &&
                  c.academicYearId == y.academicYearId))).length ≤ 1 := by
            cases hm : s.admissions.filter (fun b =>
                b.studentId == a.studentId && s.classes.any (fun c =>
                  c.classId == b.classId &&
                    c.academicYearId == y.academicYearId)) with
            | nil => simp [hm]
            | cons b bs =>
              have hbmem : b ∈ s.admissions.filter (fun b =>
                  b.studentId == a.studentId && s.classes.any (fun c =>
                    c.classId == b.classId &&
                      c.academicYearId == y.academicYearId)) := by
                rw [hm]; exact List.mem_cons_self b bs
              have hb := List.mem_filter.mp hbmem
              have hbst : b.studentId = a.studentId := by
                have := (Bool.and_eq_true _ _ |>.mp hb.2).1
                simpa using this
              have := hinv b hb.1 y hy
              rw [hbst] at this
              rw [hm] at this
              exact this
          by_cases hP : s.classes.any (fun c =>
              c.classId == cid && c.academicYearId == y.academicYearId)
          · rw [if_pos hP]
            by_cases hmem : ids.contains a.studentId
            · -- target class's year is y; no old row may exist for this student
              have hyear : y.academicYearId = classData.academicYearId := by
                rcases List.any_eq_true.mp hP with ⟨c, hcmem, hcc⟩
                have h1 := (Bool.and_eq_true _ _ |>.mp hcc).1
                have h2 := (Bool.and_eq_true _ _ |>.mp hcc).2
                simp only [beq_iff_eq] at h1 h2
                have hdmem := List.mem_of_find?_eq_some hfind
                have hdprop := List.find?_some hfind
                simp only [beq_iff_eq] at hdprop
                have : c = classData :=
                  pairwise_key_unique (fun x => x.classId) s.classes hkeys c hcmem
                    classData hdmem (by dsimp only; rw [h1, hdprop])
                rw [← this, h2]
              have hzero : (s.admissions.filter (fun b =>
                  b.studentId == a.studentId && s.classes.any (fun c =>
                    c.classId == b.classId &&
                      c.academicYearId == y.academicYearId))).length = 0 := by
                rw [List.length_eq_zero]
                rw [List.filter_eq_nil_iff]
                intro b hbmem
                intro hbcond
                have hbst : b.studentId = a.studentId := by
                  have := (Bool.and_eq_true _ _ |>.mp hbcond).1
                  simpa using this
                have hbyear := (Bool.and_eq_true _ _ |>.mp hbcond).2
                rw [hyear] at hbyear
                have : b ∈ s.admissions.filter (fun bb =>
                    ids.contains bb.studentId && s.classes.any (fun c =>
                      c.classId == bb.classId &&
                        c.academicYearId == classData.academicYearId)) := by
                  rw [List.mem_filter]
                  refine ⟨hbmem, ?_⟩
                  rw [Bool.and_eq_true]
                  constructor
                  · rw [hbst]; exact hmem
                  · exact hbyear
                rw [List.isEmpty_iff] at hdup
                rw [hdup] at this
                simp at this
              rw [hzero]
              have hcnt := length_filter_key_le_one (fun x => x) ids
                (by exact hnodup) a.studentId
              simpa using hcnt
            · have hzero2 : (ids.filter (fun x => x == a.studentId)).length = 0 := by
                rw [List.length_eq_zero, List.filter_eq_nil_iff]
                intro x hx hcond
                simp only [beq_iff_eq] at hcond
                subst hcond
                exact hmem (by simpa using hx)
              rw [hzero2]
              omega
          · rw [if_neg hP]
            omega
        · simp at hok

theorem add_rejects_already (s : Store) (cid : Nat) (ids : List Nat) (now : Nat)
    (c : SchoolClass)
    (hfind : s.classes.find? (fun x => x.classId == cid) = some c)
    (hne : ids ≠ [])
    (hcap : ¬ c.capacity < countAdmissions s cid + ids.length)
    (hoff : s.admissions.filter (fun a =>
        ids.contains a.studentId && s.classes.any (fun cc =>
          cc.classId == a.classId && cc.academicYearId == c.academicYearId)) ≠ []) :
    addStudentsToClass s cid ids now =
      .error (.alreadyAdmitted ((s.admissions.filter (fun a =>
        ids.contains a.studentId && s.classes.any (fun cc =>
          cc.classId == a.classId &&
            cc.academicYearId == c.academicYearId))).map (fun a => a.studentId))) := by
  unfold addStudentsToClass
  rw [if_neg (by simp [hne]), hfind]
  dsimp only
  rw [if_neg hcap, if_neg (by simpa [List.isEmpty_iff] using hoff)]

/-- **C3** (amended).  The one-admission-per-year invariant is preserved by
`addStudentsToClass` *provided the batch contains no duplicate student ids*,
and by `promoteStudents` *provided every student holds at most one admission
row*; and a batch containing a student who already holds an admission in a
class of the target class's academic year is rejected as a whole with an
error listing the offending student ids.  As literally stated the claim
fails (see `claim_C3_counterexample`): a batch that lists the same student
twice passes the duplicate check (the student holds no admission yet) and
inserts two admissions in the same academic year; likewise promotion of a
student holding admissions in two years leaves both rows in the target
class's year. -/
theorem claim_C3 (s : Store) (cid : Nat) (ids : List Nat) (now : Nat)
    (hkeys : s.classes.Pairwise (fun a b => a.classId ≠ b.classId))
    (hinv : oneAdmissionPerYear s) :
    (ids.Nodup →
      ∀ s', addStudentsToClass s cid ids now = .ok s' → oneAdmissionPerYear s') ∧
    (s.admissions.Pairwise (fun a b => a.studentId ≠ b.studentId) →
      ∀ s', promoteStudents s ids cid = .ok s' → oneAdmissionPerYear s') ∧
    (∀ c, s.classes.find? (fun x => x.classId == cid) = some c →
      ids ≠ [] → ¬ c.capacity < countAdmissions s cid + ids.length →
      s.admissions.filter (fun a =>
          ids.contains a.studentId && s.classes.any (fun cc =>
            cc.classId == a.classId && cc.academicYearId == c.academicYearId)) ≠ [] →
      addStudentsToClass s cid ids now =
        .error (.alreadyAdmitted ((s.admissions.filter (fun a =>
          ids.contains a.studentId && s.classes.any (fun cc =>
            cc.classId == a.classId &&
              cc.academicYearId == c.academicYearId))).map (fun a => a.studentId)))) :=
  ⟨fun hnodup s' hok => add_ok_oneAdmission s s' cid ids now hkeys hnodup hinv hok,
   fun hone s' hok => promote_ok_oneAdmission s s' ids cid hone hok,
   fun c hfind hne hcap hoff =>
     add_rejects_already s cid ids now c hfind hne hcap hoff⟩

/-- Counterexample to C3 as stated: admitting the batch `[10, 10]` (the same
student listed twice) into the empty class 1 succeeds — the cross-check sees
no *existing* admission — and creates two admissions for student 10 in
academic year 1. -/
theorem claim_C3_counterexample :
    oneAdmissionPerYear wS ∧
    addStudentsToClass wS 1 [10, 10] 7 = .ok wSdup' ∧
    ¬ oneAdmissionPerYear wSdup' :=
  ⟨by decide, by decide, by decide⟩

/-- Witness for `claim_C3`: a duplicate-free batch preserves the invariant, a
promotion under unique-admission-per-student preserves it, and a batch
containing already-admitted student 10 is rejected listing `[10]`. -/
theorem claim_C3_witness :
    oneAdmissionPerYear wS1' ∧ oneAdmissionPerYear wS ∧
      addStudentsToClass wS3 1 [10] 7 = .error (.alreadyAdmitted [10]) :=
  ⟨(claim_C3 wS 1 [10, 11] 7 (by decide) (by decide)).1 (by decide) wS1' (by decide),
   (claim_C3 wS 1 [10, 11] 7 (by decide) (by decide)).2.1 (by decide) wS (by decide),
   (claim_C3 wS3 1 [10] 7 (by decide) (by decide)).2.2
     ⟨1, 1, "10", "A", 2⟩ (by decide) (by decide) (by decide) (by decide)⟩

/-! ## C2: promotion re-derives enrollments -/


theorem flatMap_filter_notmem (rest : List Nat) (offs : List CourseOffering)
    (S : Nat) (hS : S ∉ rest) :
    (rest.flatMap (fun sid =>
        offs.map (fun o => Enrollment.mk sid o.offeringId .enrolled))).filter
      (fun e => e.studentId == S) = [] := by
  rw [List.filter_eq_nil_iff]
  intro e he
  rcases List.mem_flatMap.mp he with ⟨sid, hsid, hmem⟩
  rcases List.mem_map.mp hmem with ⟨o, _, rfl⟩
  simp only [beq_iff_eq]
  intro hcontra
  exact hS (hcontra ▸ hsid)

theorem flatMap_filter_student (ids : List Nat) (offs : List CourseOffering)
    (S : Nat) (hS : S ∈ ids) (hnodup : ids.Nodup) :
    (ids.flatMap (fun sid =>
        offs.map (fun o => Enrollment.mk sid o.offeringId .enrolled))).filter
      (fun e => e.studentId == S) =
      offs.map (fun o => Enrollment.mk S o.offeringId .enrolled) := by
  induction ids with
  | nil => simp at hS
  | cons x rest ih =>
    rw [List.flatMap_cons, List.filter_append]
    rcases List.mem_cons.mp hS with rfl | hSrest
    · have hrest : (rest.flatMap (fun sid =>
          offs.map (fun o => Enrollment.mk sid o.offeringId .enrolled))).filter
            (fun e => e.studentId == S) = [] :=
        flatMap_filter_notmem rest offs S (List.nodup_cons.mp hnodup).1
      rw [hrest, List.append_nil, List.filter_eq_self.mpr]
      intro e he
      rcases List.mem_map.mp he with ⟨o, _, rfl⟩
      simp
    · have hx : x ≠ S := by
        intro h
        exact (List.nodup_cons.mp hnodup).1 (h ▸ hSrest)
      have hhead : (offs.map (fun o => Enrollment.mk x o.offeringId .enrolled)).filter
          (fun e => e.studentId == S) = [] := by
        rw [List.filter_eq_nil_iff]
        intro e he
        rcases List.mem_map.mp he with ⟨o, _, rfl⟩
        simpa using hx
      rw [hhead, List.nil_append]
      exact ih hSrest (List.nodup_cons.mp hnodup).2

theorem promote_ok_enrollments (s s' : Store) (ids : List Nat) (cid S : Nat)
    (hnodup : ids.Nodup) (hS : S ∈ ids)
    (hprior : ∀ e ∈ s.enrollments, e.studentId ∈ ids →
      ∃ o ∈ s.offerings,
        s.offerings.find? (fun x => x.offeringId == e.offeringId) = some o ∧
        ∃ a ∈ s.admissions, a.studentId = e.studentId ∧ a.classId = o.classId)
    (hok : promoteStudents s ids cid = .ok s') :
    s'.enrollments.filter (fun e => e.studentId == S) =
      (s.offerings.filter (fun o => o.classId == cid)).map
        (fun o => Enrollment.mk S o.offeringId .enrolled) := by
  unfold promoteStudents at hok
  split at hok
  · simp at hok
  · split at hok
    · simp at hok
    next targetClass hfind =>
      dsimp only at hok
      split at hok
      · simp at hok
      next hcap =>
        simp only [Except.ok.injEq] at hok
        subst hok
        dsimp only
        rw [List.filter_append]
        have happ : ∀ (l₁ l₂ tgt : List Enrollment),
            l₁ = [] → l₂ = tgt → l₁ ++ l₂ = tgt := by
          intro l₁ l₂ tgt h1 h2
          rw [h1, h2, List.nil_append]
        apply happ
        · rw [List.filter_filter, List.filter_eq_nil_iff]
          intro e he hcond
          rw [Bool.and_eq_true] at hcond
          obtain ⟨heS, hPe⟩ := hcond
          have heS' : e.studentId = S := by simpa using heS
          have hmem : e.studentId ∈ ids := heS' ▸ hS
          rcases hprior e he hmem with ⟨o, homem, hfindo, a, hamem, hast, hacl⟩
          rw [hfindo] at hPe
          simp only [Bool.not_eq_true', Bool.and_eq_false_iff] at hPe
          rcases hPe with hPe | hPe
          · simp at hPe
            exact hPe hmem
          · simp at hPe
            exact hPe a hamem (by rw [hast]; exact hmem) hacl
        · exact flatMap_filter_student ids
            (s.offerings.filter (fun o => o.classId == cid)) S hS hnodup

/-- **C2** (amended).  After a successful `promoteStudents(ids, B)` with a
duplicate-free batch, each promoted student S whose pre-existing enrollments
all point (through the offering table) at offerings of S's own admission
classes ends up with exactly one `enrolled` row per CourseOffering of B and
nothing else — for any number of shared or unshared offerings between the
prior class and B.  As literally stated the claim fails (see
`claim_C2_counterexample`): an enrollment in an offering of a class that is
not among the promoted students' admission classes survives the deletion
step, because `promoteStudents` deletes only enrollments whose offering
belongs to one of the students' *current admission* classes. -/
theorem claim_C2 (s : Store) (ids : List Nat) (cid S : Nat)
    (hnodup : ids.Nodup) (hS : S ∈ ids)
    (hprior : ∀ e ∈ s.enrollments, e.studentId ∈ ids →
      ∃ o ∈ s.offerings,
        s.offerings.find? (fun x => x.offeringId == e.offeringId) = some o ∧
        ∃ a ∈ s.admissions, a.studentId = e.studentId ∧ a.classId = o.classId) :
    ∀ s', promoteStudents s ids cid = .ok s' →
      s'.enrollments.filter (fun e => e.studentId == S) =
        (s.offerings.filter (fun o => o.classId == cid)).map
          (fun o => Enrollment.mk S o.offeringId .enrolled) :=
  fun s' hok => promote_ok_enrollments s s' ids cid S hnodup hS hprior hok

/-- Counterexample to C2 as stated: in `cxC2`, student 100 (admitted in
class 1) holds an enrollment in offering 1 of class 3; promoting the student
to class 2 succeeds but the stale row survives, so the student's enrollments
`[offering 1, offering 2]` are not exactly class 2's offerings
`[offering 2]`.  Such states are reachable: `deleteStudentFromClass` removes
an admission without touching enrollments. -/
theorem claim_C2_counterexample :
    promoteStudents cxC2 [100] 2 = .ok cxC2' ∧
    ¬ ((cxC2'.enrollments.filter (fun e => e.studentId == 100)).map
        (fun e => e.offeringId) =
      (cxC2.offerings.filter (fun o => o.classId == 2)).map (fun o => o.offeringId)) :=
  ⟨by decide, by decide⟩

/-- Witness for `claim_C2`: promoting student 100 from class 1 (one offering,
one enrollment) to class 2 (two offerings) yields exactly one enrollment per
class-2 offering. -/
theorem claim_C2_witness :
    wC2'.enrollments.filter (fun e => e.studentId == 100) =
      (wC2.offerings.filter (fun o => o.classId == 2)).map
        (fun o => Enrollment.mk 100 o.offeringId .enrolled) :=
  claim_C2 wC2 [100] 2 100 (by decide) (by decide) (by decide) wC2' (by decide)

/-! ## C4: offering-removal guard of the subject synchronizer -/

/-- **C4** (confirmed).  When a subject synchronization reaches the
offering-removal guard — the inputs are well-formed, the subject, teacher
and active year exist, there is no name conflict, all target classes are
found, and the target sections would drop at least one CourseOffering that
has at least one StudentCourseEnrollment — the whole `editSubject` fails
with a Conflict error naming the total enrollment count of the drop set,
and (by the transaction-rollback semantics of the error result) the
CourseOffering rows, enrollment rows and the Subject row, including its
name, are all left unchanged. -/
theorem claim_C4 (s : Store) (subjectId : Nat) (name standard : String)
    (sections : List String) (teacherId : Nat) (isMandatory : Bool)
    (subj : Subject) (year : AcademicYear)
    (hname : (trimString name == "") = false)
    (hstd : (standard == "") = false)
    (hsubj : s.subjects.find? (fun x => x.subjectId == subjectId) = some subj)
    (hteacher : s.employees.any (fun e => e.employeeId == teacherId) = true)
    (hyear : s.academicYears.find? (fun y => y.isActive) = some year)
    (hnoconf : (trimString name != subj.subjectName &&
        s.subjects.any (fun x =>
          x.subjectName == trimString name && x.subjectId != subjectId)) = false)
    (hclasses : (s.classes.filter (fun c =>
        c.standard == standard && sections.contains c.sectionName &&
          c.academicYearId == year.academicYearId)).length = sections.length)
    (hsec : ¬ sections = [])
    (hdrop : offeringsToDrop s subjectId standard sections year.academicYearId ≠ [])
    (hcount : 0 < dropEnrollCount s subjectId standard sections year.academicYearId) :
    editSubject s subjectId name standard sections teacherId isMandatory =
      .error (.enrolledConflict
        (dropEnrollCount s subjectId standard sections year.academicYearId)) := by
  unfold editSubject
  rw [if_neg (by simp [hname]), if_neg (by simp [hstd]),
    if_neg (by simp [List.isEmpty_iff, hsec]), hsubj]
  dsimp only
  rw [if_neg (by simp [hteacher]), hyear]
  dsimp only
  rw [if_neg (by simp [hnoconf])]
  rw [if_neg (by rw [hclasses]; simp)]
  rw [if_pos]
  · rfl
  · rw [Bool.and_eq_true]
    refine ⟨?_, ?_⟩
    · have h := hdrop
      unfold offeringsToDrop at h
      simpa [List.isEmpty_iff] using h
    · have h := hcount
      unfold dropEnrollCount offeringsToDrop at h
      simpa using h

/-- Witness for `claim_C4`: editing subject "Physics" (standard 10) from
sections `[A, B]` to `[B, C]` while 5 students are enrolled in the section-A
offering yields `Conflict` naming 5. -/
theorem claim_C4_witness :
    editSubject wC4 1 "Physics" "10" ["B", "C"] 5 true =
      .error (.enrolledConflict 5) := by
  have h := claim_C4 wC4 1 "Physics" "10" ["B", "C"] 5 true
    ⟨1, "Physics"⟩ ⟨1, true⟩ (by decide) (by decide) (by decide) (by decide)
    (by decide) (by decide) (by decide) (by decide) (by decide) (by decide)
  simpa using h

/-! ## Upsert lemmas shared by the attendance and leave claims -/


theorem filter_map_invariant {α} (f : α → α) (q : α → Bool) (l : List α)
    (h : ∀ a ∈ l, q (f a) = q a ∧ (q a = true → f a = a)) :
    (l.map f).filter q = l.filter q := by
  induction l with
  | nil => rfl
  | cons a rest ih =>
    have ha := h a (List.mem_cons_self a rest)
    have ih' := ih (fun b hb => h b (List.mem_cons_of_mem a hb))
    simp only [List.map_cons, List.filter_cons]
    cases hq : q a with
    | true => simp [ha.2 hq, hq, ih']
    | false => simp [ha.1, hq, ih']


theorem filter_map_update {α} (rows : List α)
    (upd : α → α)
    (key : α → Bool)
    (hupd : ∀ r, key r = true → key (upd r) = true) :
    (rows.map (fun r => if key r then upd r else r)).filter key =
      (rows.filter key).map (fun r => if key r then upd r else r) := by
  induction rows with
  | nil => rfl
  | cons a rest ih =>
    simp only [List.map_cons, List.filter_cons]
    cases hk : key a with
    | true =>
      have h2 : key (upd a) = true := hupd a hk
      simp [hk, h2, ih]
    | false =>
      simp [hk, ih]

theorem upsert_key_count (rows : List EmployeeAttendance)
    (upd : EmployeeAttendance → EmployeeAttendance) (row : EmployeeAttendance)
    (hupd : ∀ r, empKey row.employeeId row.date r = true →
      (upd r).employeeId = r.employeeId ∧ (upd r).date = r.date) :
    ((upsertEmployeeRow rows upd row).filter (empKey row.employeeId row.date)).length =
    max 1 ((rows.filter (empKey row.employeeId row.date)).length) := by
  unfold upsertEmployeeRow
  cases hany : rows.any (fun r => r.employeeId == row.employeeId && r.date == row.date) with
  | false =>
    simp only [Bool.false_eq_true, if_false]
    rw [List.filter_append]
    have hnil : rows.filter (empKey row.employeeId row.date) = [] := by
      rw [List.filter_eq_nil_iff]
      intro r hr
      have := List.any_eq_false.mp hany r hr
      simpa [empKey] using this
    rw [hnil]
    simp [empKey]
  | true =>
    simp only [if_true]
    have hkeep : ∀ r, empKey row.employeeId row.date r = true →
        empKey row.employeeId row.date ((fun x => upd x) r) = true := by
      intro r hr
      have hu := hupd r hr
      unfold empKey at hr ⊢
      rw [Bool.and_eq_true] at hr ⊢
      exact ⟨by rw [hu.1]; exact hr.1, by rw [hu.2]; exact hr.2⟩
    have hmap := filter_map_update rows upd (empKey row.employeeId row.date) hkeep
    have hsame : (rows.map (fun r =>
        if r.employeeId == row.employeeId && r.date == row.date then upd r else r)) =
        (rows.map (fun r =>
          if empKey row.employeeId row.date r then upd r else r)) := rfl
    rw [hsame, hmap, List.length_map]
    have hpos : 0 < (rows.filter (empKey row.employeeId row.date)).length := by
      rcases List.any_eq_true.mp hany with ⟨r, hr, hkey⟩
      have : r ∈ rows.filter (empKey row.employeeId row.date) :=
        List.mem_filter.mpr ⟨hr, hkey⟩
      exact List.length_pos.mpr (List.ne_nil_of_mem this)
    omega

theorem upsert_key_status (rows : List EmployeeAttendance)
    (upd : EmployeeAttendance → EmployeeAttendance) (row : EmployeeAttendance)
    (st : AttStatus) (rem : Option String)
    (hrow : row.status = st ∧ row.remarks = rem)
    (hupd : ∀ r, empKey row.employeeId row.date r = true →
      (upd r).status = st ∧ (upd r).remarks = rem) :
    ∀ r ∈ (upsertEmployeeRow rows upd row).filter (empKey row.employeeId row.date),
      r.status = st ∧ r.remarks = rem := by
  intro r hr
  unfold upsertEmployeeRow at hr
  cases hany : rows.any (fun r => r.employeeId == row.employeeId && r.date == row.date) with
  | false =>
    rw [hany] at hr
    simp only [Bool.false_eq_true, if_false] at hr
    rw [List.filter_append] at hr
    have hnil : rows.filter (empKey row.employeeId row.date) = [] := by
      rw [List.filter_eq_nil_iff]
      intro x hx
      have := List.any_eq_false.mp hany x hx
      simpa [empKey] using this
    rw [hnil, List.nil_append] at hr
    have hmem : r ∈ [row] := List.mem_of_mem_filter hr
    rw [List.mem_singleton] at hmem
    subst hmem
    exact hrow
  | true =>
    rw [hany] at hr
    simp only [if_true] at hr
    have hmem := List.mem_filter.mp hr
    rcases List.mem_map.mp hmem.1 with ⟨r₀, hr₀, heq⟩
    by_cases hk : (r₀.employeeId == row.employeeId && r₀.date == row.date) = true
    · rw [if_pos hk] at heq
      subst heq
      exact hupd r₀ hk
    · rw [if_neg hk] at heq
      subst heq
      exact absurd hmem.2 hk

theorem upsert_other (rows : List EmployeeAttendance)
    (upd : EmployeeAttendance → EmployeeAttendance) (row : EmployeeAttendance)
    (E d : Nat)
    (hne : ¬(row.employeeId = E ∧ row.date = d))
    (hupd : ∀ r, empKey row.employeeId row.date r = true →
      (upd r).employeeId = r.employeeId ∧ (upd r).date = r.date) :
    (upsertEmployeeRow rows upd row).filter (empKey E d) =
      rows.filter (empKey E d) := by
  unfold upsertEmployeeRow
  cases hany : rows.any (fun r => r.employeeId == row.employeeId && r.date == row.date) with
  | false =>
    simp only [Bool.false_eq_true, if_false]
    rw [List.filter_append]
    have hone : List.filter (empKey E d) [row] = [] := by
      have hkey : empKey E d row = false := by
        unfold empKey
        by_cases h1 : row.employeeId = E
        · by_cases h2 : row.date = d
          · exact absurd ⟨h1, h2⟩ hne
          · simp [h2]
        · simp [h1]
      simp [List.filter_cons, hkey]
    rw [hone, List.append_nil]
  | true =>
    simp only [if_true]
    apply filter_map_invariant
    intro a _
    constructor
    · by_cases hk : (a.employeeId == row.employeeId && a.date == row.date) = true
      · rw [if_pos hk]
        have hu := hupd a hk
        unfold empKey
        rw [hu.1, hu.2]
      · rw [if_neg hk]
    · intro hq
      by_cases hk : (a.employeeId == row.employeeId && a.date == row.date) = true
      · exfalso
        unfold empKey at hq
        rw [Bool.and_eq_true] at hq hk
        apply hne
        have h1 := hq.1
        have h2 := hk.1
        have h3 := hq.2
        have h4 := hk.2
        simp only [beq_iff_eq] at h1 h2 h3 h4
        exact ⟨by rw [← h2, h1], by rw [← h4, h3]⟩
      · rw [if_neg hk]

theorem fold_upsert_other {γ : Type} (xs : List γ)
    (updOf : γ → EmployeeAttendance → EmployeeAttendance)
    (rowOf : γ → EmployeeAttendance) (rows : List EmployeeAttendance) (E d : Nat)
    (hupd : ∀ x ∈ xs, ∀ r, empKey (rowOf x).employeeId (rowOf x).date r = true →
      (updOf x r).employeeId = r.employeeId ∧ (updOf x r).date = r.date)
    (hne : ∀ x ∈ xs, ¬((rowOf x).employeeId = E ∧ (rowOf x).date = d)) :
    (xs.foldl (fun acc x => upsertEmployeeRow acc (updOf x) (rowOf x)) rows).filter
        (empKey E d) =
      rows.filter (empKey E d) := by
  induction xs generalizing rows with
  | nil => rfl
  | cons x rest ih =>
    rw [List.foldl_cons]
    rw [ih _ (fun y hy => hupd y (List.mem_cons_of_mem _ hy))
        (fun y hy => hne y (List.mem_cons_of_mem _ hy))]
    exact upsert_other rows (updOf x) (rowOf x) E d
      (hne x (List.mem_cons_self _ _)) (hupd x (List.mem_cons_self _ _))

theorem fold_upsert_key {γ : Type} (xs : List γ)
    (updOf : γ → EmployeeAttendance → EmployeeAttendance)
    (rowOf : γ → EmployeeAttendance) (rows : List EmployeeAttendance) (E d : Nat)
    (st : AttStatus) (rem : Option String)
    (hrow : ∀ x ∈ xs, (rowOf x).employeeId = E ∧
      (rowOf x).status = st ∧ (rowOf x).remarks = rem)
    (hupd1 : ∀ x ∈ xs, ∀ r, empKey (rowOf x).employeeId (rowOf x).date r = true →
      (updOf x r).employeeId = r.employeeId ∧ (updOf x r).date = r.date)
    (hupd2 : ∀ x ∈ xs, ∀ r, empKey (rowOf x).employeeId (rowOf x).date r = true →
      (updOf x r).status = st ∧ (updOf x r).remarks = rem)
    (hd : ∃ x ∈ xs, (rowOf x).date = d) :
    ((xs.foldl (fun acc x => upsertEmployeeRow acc (updOf x) (rowOf x)) rows).filter
        (empKey E d)).length = max 1 ((rows.filter (empKey E d)).length) ∧
    ∀ r ∈ (xs.foldl (fun acc x => upsertEmployeeRow acc (updOf x) (rowOf x)) rows).filter
        (empKey E d), r.status = st ∧ r.remarks = rem := by
  induction xs generalizing rows with
  | nil => rcases hd with ⟨x, hx, _⟩; simp at hx
  | cons x rest ih =>
    rw [List.foldl_cons]
    by_cases hrest : ∃ y ∈ rest, (rowOf y).date = d
    · have hIH := ih (upsertEmployeeRow rows (updOf x) (rowOf x))
        (fun y hy => hrow y (List.mem_cons_of_mem _ hy))
        (fun y hy => hupd1 y (List.mem_cons_of_mem _ hy))
        (fun y hy => hupd2 y (List.mem_cons_of_mem _ hy))
        hrest
      refine ⟨?_, hIH.2⟩
      rw [hIH.1]
      by_cases hxd : (rowOf x).date = d
      · have hkey : empKey E d = empKey (rowOf x).employeeId (rowOf x).date := by
          rw [(hrow x (List.mem_cons_self _ _)).1, hxd]
        rw [hkey, upsert_key_count rows (updOf x) (rowOf x)
          (hupd1 x (List.mem_cons_self _ _))]
        omega
      · rw [upsert_other rows (updOf x) (rowOf x) E d
          (fun hc => hxd hc.2) (hupd1 x (List.mem_cons_self _ _))]
    · have hxd : (rowOf x).date = d := by
        rcases hd with ⟨y, hy, hyd⟩
        rcases List.mem_cons.mp hy with rfl | hy'
        · exact hyd
        · exact absurd ⟨y, hy', hyd⟩ hrest
      have hkey : empKey E d = empKey (rowOf x).employeeId (rowOf x).date := by
        rw [(hrow x (List.mem_cons_self _ _)).1, hxd]
      have hpres := fold_upsert_other rest updOf rowOf
        (upsertEmployeeRow rows (updOf x) (rowOf x)) E d
        (fun y hy => hupd1 y (List.mem_cons_of_mem _ hy))
        (fun y hy hc => hrest ⟨y, hy, hc.2⟩)
      rw [hpres, hkey]
      constructor
      · exact upsert_key_count rows (updOf x) (rowOf x)
          (hupd1 x (List.mem_cons_self _ _))
      · exact upsert_key_status rows (updOf x) (rowOf x) st rem
          ⟨(hrow x (List.mem_cons_self _ _)).2.1, (hrow x (List.mem_cons_self _ _)).2.2⟩
          (hupd2 x (List.mem_cons_self _ _))

/- student-side upsert lemmas -/


theorem stu_upsert_key_count (rows : List StudentAttendance) (nid P cl d : Nat)
    (st : AttStatus) (rem : Option String) :
    ((upsertStudentRow rows nid P cl d st rem).1.filter (stuKey P d)).length =
      max 1 ((rows.filter (stuKey P d)).length) := by
  unfold upsertStudentRow
  cases hany : rows.any (fun r => r.studentId == P && r.date == d) with
  | false =>
    simp only [Bool.false_eq_true, if_false]
    rw [List.filter_append]
    have hnil : rows.filter (stuKey P d) = [] := by
      rw [List.filter_eq_nil_iff]
      intro r hr
      have := List.any_eq_false.mp hany r hr
      simpa [stuKey] using this
    rw [hnil]
    simp [stuKey]
  | true =>
    simp only [if_true]
    have hkeep : ∀ r, stuKey P d r = true →
        stuKey P d { r with status := st, remarks := rem } = true := by
      intro r hr
      simpa [stuKey] using hr
    have hmap := filter_map_update rows
      (fun r => { r with status := st, remarks := rem }) (stuKey P d) hkeep
    have hsame : (rows.map (fun r =>
        if r.studentId == P && r.date == d then
          { r with status := st, remarks := rem } else r)) =
        (rows.map (fun r =>
          if stuKey P d r then { r with status := st, remarks := rem } else r)) := rfl
    rw [hsame, hmap, List.length_map]
    have hpos : 0 < (rows.filter (stuKey P d)).length := by
      rcases List.any_eq_true.mp hany with ⟨r, hr, hkey⟩
      have : r ∈ rows.filter (stuKey P d) := List.mem_filter.mpr ⟨hr, hkey⟩
      exact List.length_pos.mpr (List.ne_nil_of_mem this)
    omega

theorem stu_upsert_key_status (rows : List StudentAttendance) (nid P cl d : Nat)
    (st : AttStatus) (rem : Option String) :
    ∀ r ∈ (upsertStudentRow rows nid P cl d st rem).1.filter (stuKey P d),
      r.status = st ∧ r.remarks = rem := by
  intro r hr
  unfold upsertStudentRow at hr
  cases hany : rows.any (fun r => r.studentId == P && r.date == d) with
  | false =>
    rw [hany] at hr
    simp only [Bool.false_eq_true, if_false] at hr
    rw [List.filter_append] at hr
    have hnil : rows.filter (stuKey P d) = [] := by
      rw [List.filter_eq_nil_iff]
      intro x hx
      have := List.any_eq_false.mp hany x hx
      simpa [stuKey] using this
    rw [hnil, List.nil_append] at hr
    have hmem : r ∈ [StudentAttendance.mk nid P cl d st rem] :=
      List.mem_of_mem_filter hr
    rw [List.mem_singleton] at hmem
    subst hmem
    exact ⟨rfl, rfl⟩
  | true =>
    rw [hany] at hr
    simp only [if_true] at hr
    have hmem := List.mem_filter.mp hr
    rcases List.mem_map.mp hmem.1 with ⟨r₀, hr₀, heq⟩
    by_cases hk : (r₀.studentId == P && r₀.date == d) = true
    · rw [if_pos hk] at heq
      subst heq
      exact ⟨rfl, rfl⟩
    · rw [if_neg hk] at heq
      subst heq
      exact absurd hmem.2 hk

theorem stu_upsert_other (rows : List StudentAttendance) (nid P cl d : Nat)
    (st : AttStatus) (rem : Option String) (P' d' : Nat)
    (hne : ¬(P = P' ∧ d = d')) :
    (upsertStudentRow rows nid P cl d st rem).1.filter (stuKey P' d') =
      rows.filter (stuKey P' d') := by
  unfold upsertStudentRow
  cases hany : rows.any (fun r => r.studentId == P && r.date == d) with
  | false =>
    simp only [Bool.false_eq_true, if_false]
    rw [List.filter_append]
    have hone : List.filter (stuKey P' d') [StudentAttendance.mk nid P cl d st rem] = [] := by
      have hkey : stuKey P' d' (StudentAttendance.mk nid P cl d st rem) = false := by
        unfold stuKey
        by_cases h1 : P = P'
        · by_cases h2 : d = d'
          · exact absurd ⟨h1, h2⟩ hne
          · simp [h2]
        · simp [h1]
      simp [List.filter_cons, hkey]
    rw [hone, List.append_nil]
  | true =>
    simp only [if_true]
    apply filter_map_invariant
    intro a _
    constructor
    · by_cases hk : (a.studentId == P && a.date == d) = true
      · rw [if_pos hk]
        unfold stuKey
        rfl
      · rw [if_neg hk]
    · intro hq
      by_cases hk : (a.studentId == P && a.date == d) = true
      · exfalso
        unfold stuKey at hq
        rw [Bool.and_eq_true] at hq hk
        apply hne
        have h1 := hq.1
        have h2 := hk.1
        have h3 := hq.2
        have h4 := hk.2
        simp only [beq_iff_eq] at h1 h2 h3 h4
        exact ⟨by rw [← h2, h1], by rw [← h4, h3]⟩
      · rw [if_neg hk]

theorem stu_fold_other (ds : List Nat) (P cl : Nat) (st : AttStatus)
    (rem : Option String) (rows : List StudentAttendance) (nid : Nat)
    (P' d' : Nat) (hne : ∀ d ∈ ds, ¬(P = P' ∧ d = d')) :
    (ds.foldl (fun acc d => upsertStudentRow acc.1 acc.2 P cl d st rem)
        (rows, nid)).1.filter (stuKey P' d') =
      rows.filter (stuKey P' d') := by
  induction ds generalizing rows nid with
  | nil => rfl
  | cons d rest ih =>
    rw [List.foldl_cons]
    have hstep : (upsertStudentRow rows nid P cl d st rem) =
        ((upsertStudentRow rows nid P cl d st rem).1,
         (upsertStudentRow rows nid P cl d st rem).2) := rfl
    rw [hstep, ih _ _ (fun y hy => hne y (List.mem_cons_of_mem _ hy))]
    exact stu_upsert_other rows nid P cl d st rem P' d'
      (hne d (List.mem_cons_self _ _))

theorem stu_fold_key (ds : List Nat) (P cl : Nat) (st : AttStatus)
    (rem : Option String) (rows : List StudentAttendance) (nid : Nat)
    (d' : Nat) (hd : d' ∈ ds) :
    (((ds.foldl (fun acc d => upsertStudentRow acc.1 acc.2 P cl d st rem)
        (rows, nid)).1.filter (stuKey P d')).length =
      max 1 ((rows.filter (stuKey P d')).length)) ∧
    ∀ r ∈ (ds.foldl (fun acc d => upsertStudentRow acc.1 acc.2 P cl d st rem)
        (rows, nid)).1.filter (stuKey P d'), r.status = st ∧ r.remarks = rem := by
  induction ds generalizing rows nid with
  | nil => simp at hd
  | cons d rest ih =>
    rw [List.foldl_cons]
    have hstep : (upsertStudentRow rows nid P cl d st rem) =
        ((upsertStudentRow rows nid P cl d st rem).1,
         (upsertStudentRow rows nid P cl d st rem).2) := rfl
    by_cases hrest : d' ∈ rest
    · have hIH := ih (upsertStudentRow rows nid P cl d st rem).1
        (upsertStudentRow rows nid P cl d st rem).2 hrest
      rw [hstep]
      refine ⟨?_, hIH.2⟩
      rw [hIH.1]
      by_cases hdd : d = d'
      · subst hdd
        rw [stu_upsert_key_count]
        omega
      · rw [stu_upsert_other rows nid P cl d st rem P d' (fun hc => hdd hc.2)]
    · have hdd : d = d' := by
        rcases List.mem_cons.mp hd with h | h
        · exact h.symm
        · exact absurd h hrest
      subst hdd
      rw [hstep, stu_fold_other rest P cl st rem _ _ P d
        (fun y hy hc => hrest (hc.2 ▸ hy))]
      exact ⟨stu_upsert_key_count rows nid P cl d st rem,
        stu_upsert_key_status rows nid P cl d st rem⟩

/-! ## C5: attendance upsert idempotence and date-range expansion -/


theorem length_filter_le_one_of_pairwise {α} (l : List α) (p : α → Bool)
    (h : l.Pairwise (fun a b => ¬(p a = true ∧ p b = true))) :
    (l.filter p).length ≤ 1 := by
  induction l with
  | nil => simp
  | cons a rest ih =>
    rw [List.pairwise_cons] at h
    simp only [List.filter_cons]
    cases hp : p a with
    | false => simpa using ih h.2
    | true =>
      have hnil : rest.filter p = [] :=
        List.filter_eq_nil_iff.mpr (fun b hb hpb => h.1 b hb ⟨hp, hpb⟩)
      simp [hnil]

theorem stuKeyUnique_of_pairwise (l : List StudentAttendance) (P d : Nat)
    (h : l.Pairwise (fun r1 r2 => ¬(r1.studentId = r2.studentId ∧ r1.date = r2.date))) :
    (l.filter (stuKey P d)).length ≤ 1 := by
  apply length_filter_le_one_of_pairwise
  apply h.imp
  intro a b hab hk
  apply hab
  obtain ⟨hka, hkb⟩ := hk
  unfold stuKey at hka hkb
  rw [Bool.and_eq_true] at hka hkb
  have h1 := hka.1; have h2 := hka.2; have h3 := hkb.1; have h4 := hkb.2
  simp only [beq_iff_eq] at h1 h2 h3 h4
  exact ⟨by rw [h1, h3], by rw [h2, h4]⟩

theorem empKeyUnique_of_pairwise (l : List EmployeeAttendance) (E d : Nat)
    (h : l.Pairwise (fun r1 r2 => ¬(r1.employeeId = r2.employeeId ∧ r1.date = r2.date))) :
    (l.filter (empKey E d)).length ≤ 1 := by
  apply length_filter_le_one_of_pairwise
  apply h.imp
  intro a b hab hk
  apply hab
  obtain ⟨hka, hkb⟩ := hk
  unfold empKey at hka hkb
  rw [Bool.and_eq_true] at hka hkb
  have h1 := hka.1; have h2 := hka.2; have h3 := hkb.1; have h4 := hkb.2
  simp only [beq_iff_eq] at h1 h2 h3 h4
  exact ⟨by rw [h1, h3], by rw [h2, h4]⟩

theorem flatMap_singleton_map {α β} (l : List α) (f : α → β) :
    (l.flatMap (fun a => [f a])) = l.map f := by
  induction l with
  | nil => rfl
  | cons a rest ih => simp [List.flatMap_cons, ih]

/-- **C5** (confirmed).  Upserting attendance for `(P, D, s1)` and then
`(P, D, s2)` (student path, key-unique pre-state) leaves exactly one
attendance row for `(P, D)` carrying status `s2` — the upsert is idempotent
and last-write-wins on the `(person, date)` key; and a bulk upsert over the
midnight-aligned range `[a, b]` executes exactly `b - a + 1` upserts per
person — one per calendar day, inclusive of both endpoints, never more —
leaving exactly one row per day in the range. -/
theorem claim_C5 (s : Store) (std sec : String) (P day : Nat)
    (st1 st2 stB : AttStatus) (r1 r2 reB : Option String)
    (ci co : Option Nat) (cls : SchoolClass)
    (hcls : findActiveClass s std sec = some cls)
    (hpwS : s.studentAttendance.Pairwise
      (fun a b => ¬(a.studentId = b.studentId ∧ a.date = b.date)))
    (hpwE : s.employeeAttendance.Pairwise
      (fun a b => ¬(a.employeeId = b.employeeId ∧ a.date = b.date))) :
    (∀ s₁ s₂,
      upsertStudentAttendance s std sec day [⟨P, st1, r1⟩] = .ok s₁ →
      upsertStudentAttendance s₁ std sec day [⟨P, st2, r2⟩] = .ok s₂ →
      (s₂.studentAttendance.filter (stuKey P (day * dayMs))).length = 1 ∧
      ∀ r ∈ s₂.studentAttendance.filter (stuKey P (day * dayMs)),
        r.status = st2 ∧ r.remarks = r2) ∧
    (∀ E a b s' cnt, a ≤ b →
      markBulkAttendance s [E] (a * dayMs) (b * dayMs) stB ci co reB = .ok (s', cnt) →
      cnt = b - a + 1 ∧
      ∀ d, a ≤ d → d ≤ b →
        (s'.employeeAttendance.filter (empKey E (d * dayMs))).length = 1 ∧
        ∀ r ∈ s'.employeeAttendance.filter (empKey E (d * dayMs)),
          r.status = stB ∧ r.remarks = reB) := by
  constructor
  · intro s₁ s₂ h1 h2
    unfold upsertStudentAttendance at h1 h2
    simp only [List.isEmpty_cons, Bool.false_eq_true, if_false] at h1 h2
    rw [hcls] at h1
    simp only [List.foldl_cons, List.foldl_nil, Except.ok.injEq] at h1
    subst h1
    have hcls₁ : findActiveClass
        { s with
            studentAttendance := (upsertStudentRow s.studentAttendance s.nextId P
              cls.classId (day * dayMs) st1 r1).1
            nextId := (upsertStudentRow s.studentAttendance s.nextId P
              cls.classId (day * dayMs) st1 r1).2 } std sec = some cls := by
      unfold findActiveClass at hcls ⊢
      exact hcls
    rw [hcls₁] at h2
    simp only [List.foldl_cons, List.foldl_nil, Except.ok.injEq] at h2
    subst h2
    dsimp only
    constructor
    · rw [stu_upsert_key_count, stu_upsert_key_count]
      have := stuKeyUnique_of_pairwise s.studentAttendance P (day * dayMs) hpwS
      omega
    · exact stu_upsert_key_status _ _ _ _ _ _ _
  · intro E a b s' cnt hab hok
    unfold markBulkAttendance at hok
    simp only [List.isEmpty_cons, Bool.false_eq_true, if_false] at hok
    have hrange := dateRange_days a b hab
    have hne : (dateRange (a * dayMs) (b * dayMs)).isEmpty = false := by
      rw [hrange]
      have : b - a + 1 = (b - a) + 1 := rfl
      rw [this, List.range_succ_eq_map]
      simp
    rw [hne] at hok
    simp only [Bool.false_eq_true, if_false, List.map_cons, List.map_nil,
      Except.ok.injEq, Prod.mk.injEq] at hok
    obtain ⟨hs', hcnt⟩ := hok
    have hops : (dateRange (a * dayMs) (b * dayMs)).flatMap (fun d =>
        [EmployeeAttendance.mk E d stB .manual_bulk reB ci co]) =
        (dateRange (a * dayMs) (b * dayMs)).map (fun d =>
          EmployeeAttendance.mk E d stB .manual_bulk reB ci co) :=
      flatMap_singleton_map _ _
    constructor
    · rw [← hcnt, hops, List.length_map, hrange, List.length_map, List.length_range]
    · intro d hda hdb
      subst hs'
      dsimp only
      rw [hops]
      have hfold := fold_upsert_key
        ((dateRange (a * dayMs) (b * dayMs)).map (fun d =>
          EmployeeAttendance.mk E d stB .manual_bulk reB ci co))
        (fun x _ => x) (fun x => x) s.employeeAttendance E (d * dayMs) stB reB
        (by
          intro x hx
          rcases List.mem_map.mp hx with ⟨d₀, _, rfl⟩
          exact ⟨rfl, rfl, rfl⟩)
        (by
          intro x hx r hr
          rcases List.mem_map.mp hx with ⟨d₀, _, rfl⟩
          unfold empKey at hr
          rw [Bool.and_eq_true] at hr
          have h1 := hr.1; have h2 := hr.2
          simp only [beq_iff_eq] at h1 h2
          exact ⟨h1.symm, h2.symm⟩)
        (by
          intro x hx r hr
          rcases List.mem_map.mp hx with ⟨d₀, _, rfl⟩
          exact ⟨rfl, rfl⟩)
        (by
          refine ⟨EmployeeAttendance.mk E (d * dayMs) stB .manual_bulk reB ci co, ?_, rfl⟩
          apply List.mem_map.mpr
          refine ⟨d * dayMs, ?_, rfl⟩
          rw [hrange]
          apply List.mem_map.mpr
          refine ⟨d - a, ?_, ?_⟩
          · rw [List.mem_range]
            omega
          · have : a + (d - a) = d := by omega
            rw [this])
      have hle := empKeyUnique_of_pairwise s.employeeAttendance E (d * dayMs) hpwE
      constructor
      · rw [hfold.1]
        omega
      · exact hfold.2

/-- Witness for `claim_C5`: upserting (student 10, day 3, present) then
(student 10, day 3, late) leaves one row with the latest status, and bulk
marking employee 7 present over days 1..3 gives 3 upserts with one row on
day 2. -/
theorem claim_C5_witness :
    ((wS5b.studentAttendance.filter (stuKey 10 (3 * dayMs))).length = 1 ∧
      ∀ r ∈ wS5b.studentAttendance.filter (stuKey 10 (3 * dayMs)),
        r.status = .late ∧ r.remarks = some "x") ∧
    ((wS5c.employeeAttendance.filter (empKey 7 (2 * dayMs))).length = 1 ∧
      ∀ r ∈ wS5c.employeeAttendance.filter (empKey 7 (2 * dayMs)),
        r.status = .present ∧ r.remarks = none) :=
  ⟨(claim_C5 wS "10" "A" 10 3 .present .late .present none (some "x") none
      none none ⟨1, 1, "10", "A", 2⟩ (by decide) (by decide) (by decide)).1
      wS5a wS5b (by decide) (by decide),
   ((claim_C5 wS "10" "A" 10 3 .present .late .present none (some "x") none
      none none ⟨1, 1, "10", "A", 2⟩ (by decide) (by decide) (by decide)).2
      7 1 3 wS5c 3 (by decide) (by decide)).2 2 (by decide) (by decide)⟩

/-! ## C6: date normalization of attendance keys -/


theorem upsertStudentRow_dates (rows : List StudentAttendance) (nid P cl d : Nat)
    (st : AttStatus) (rem : Option String)
    (h : ∀ r ∈ rows, r.date % dayMs = 0) (hd : d % dayMs = 0) :
    ∀ r ∈ (upsertStudentRow rows nid P cl d st rem).1, r.date % dayMs = 0 := by
  intro r hr
  unfold upsertStudentRow at hr
  cases hany : rows.any (fun r => r.studentId == P && r.date == d) with
  | false =>
    rw [hany] at hr
    simp only [Bool.false_eq_true, if_false] at hr
    rcases List.mem_append.mp hr with hmem | hmem
    · exact h r hmem
    · rw [List.mem_singleton] at hmem
      subst hmem
      exact hd
  | true =>
    rw [hany] at hr
    simp only [if_true] at hr
    rcases List.mem_map.mp hr with ⟨r₀, hr₀, heq⟩
    by_cases hk : (r₀.studentId == P && r₀.date == d) = true
    · rw [if_pos hk] at heq
      subst heq
      exact h r₀ hr₀
    · rw [if_neg hk] at heq
      subst heq
      exact h r₀ hr₀

theorem fold_entries_dates (entries : List AttEntry) (cl day : Nat)
    (rows : List StudentAttendance) (nid : Nat)
    (h : ∀ r ∈ rows, r.date % dayMs = 0) :
    ∀ r ∈ (entries.foldl (fun acc rec =>
        upsertStudentRow acc.1 acc.2 rec.studentId cl (day * dayMs)
          rec.status rec.remarks) (rows, nid)).1, r.date % dayMs = 0 := by
  induction entries generalizing rows nid with
  | nil => exact h
  | cons e rest ih =>
    rw [List.foldl_cons]
    have hstep : (upsertStudentRow rows nid e.studentId cl (day * dayMs)
        e.status e.remarks) =
        ((upsertStudentRow rows nid e.studentId cl (day * dayMs)
          e.status e.remarks).1,
         (upsertStudentRow rows nid e.studentId cl (day * dayMs)
          e.status e.remarks).2) := rfl
    rw [hstep]
    exact ih _ _ (upsertStudentRow_dates rows nid e.studentId cl (day * dayMs)
      e.status e.remarks h (Nat.mul_mod_left day dayMs))

/-- **C6** (amended).  Student-attendance writes are normalized: every row
an accepted `upsertStudentAttendance` leaves in the store is keyed at a UTC
midnight (`date % dayMs = 0`), because the controller builds the key from
the date-only input as `new Date(date + 'T00:00:00.000Z')`.  Employee
attendance writes are *not* normalized: `markSingleAttendance` keys the
upsert by `new Date(date)` verbatim, so two inputs denoting the same
calendar day with different time components hit two different rows (see
`claim_C6_counterexample` for the concrete same-day split, which refutes
the claim as stated). -/
theorem claim_C6 (s : Store) :
    (∀ (std sec : String) (day : Nat) (entries : List AttEntry) (s' : Store),
      (∀ r ∈ s.studentAttendance, r.date % dayMs = 0) →
      upsertStudentAttendance s std sec day entries = .ok s' →
      ∀ r ∈ s'.studentAttendance, r.date % dayMs = 0) ∧
    (∀ (E t1 t2 : Nat) (st : AttStatus) (ci co : Option Nat) (re : Option String)
      (s₁ s₂ : Store),
      s.employeeAttendance.filter (fun r => r.employeeId == E) = [] →
      t1 ≠ t2 →
      markSingleAttendance s E t1 st ci co re = .ok s₁ →
      markSingleAttendance s₁ E t2 st ci co re = .ok s₂ →
      s₂.employeeAttendance.filter (fun r => r.employeeId == E) =
        [EmployeeAttendance.mk E t1 st .manual re ci co,
         EmployeeAttendance.mk E t2 st .manual re ci co]) := by
  constructor
  · intro std sec day entries s' hpre hok
    unfold upsertStudentAttendance at hok
    split at hok
    · simp at hok
    · split at hok
      · simp at hok
      next cls hcls =>
        simp only [Except.ok.injEq] at hok
        subst hok
        exact fold_entries_dates entries cls.classId day s.studentAttendance
          s.nextId hpre
  · intro E t1 t2 st ci co re s₁ s₂ hnone hne h1 h2
    unfold markSingleAttendance at h1 h2
    simp only [Except.ok.injEq] at h1 h2
    subst h1
    subst h2
    dsimp only
    have hnokey1 : s.employeeAttendance.any
        (fun r => r.employeeId == E && r.date == t1) = false := by
      rw [List.any_eq_false]
      intro r hr
      intro hcontra
      rw [Bool.and_eq_true] at hcontra
      have : r ∈ s.employeeAttendance.filter (fun r => r.employeeId == E) :=
        List.mem_filter.mpr ⟨hr, hcontra.1⟩
      rw [hnone] at this
      simp at this
    unfold upsertEmployeeRow
    rw [hnokey1]
    simp only [Bool.false_eq_true, if_false]
    have hnokey2 : (s.employeeAttendance ++
        [EmployeeAttendance.mk E t1 st .manual re ci co]).any
        (fun r => r.employeeId == E && r.date == t2) = false := by
      rw [List.any_eq_false]
      intro r hr
      intro hcontra
      rw [Bool.and_eq_true] at hcontra
      rcases List.mem_append.mp hr with hmem | hmem
      · have : r ∈ s.employeeAttendance.filter (fun r => r.employeeId == E) :=
          List.mem_filter.mpr ⟨hmem, hcontra.1⟩
        rw [hnone] at this
        simp at this
      · rw [List.mem_singleton] at hmem
        subst hmem
        have := hcontra.2
        simp only [beq_iff_eq] at this
        exact hne this
    rw [hnokey2]
    simp only [Bool.false_eq_true, if_false]
    rw [List.append_assoc, List.filter_append]
    have hfilnil : s.employeeAttendance.filter (fun r => r.employeeId == E) = [] :=
      hnone
    rw [hfilnil, List.nil_append]
    simp

/-- Counterexample to C6 as stated: two `markSingleAttendance` writes for
employee 7 denoting the same calendar day (timestamps 0 and 36000000, i.e.
midnight and 10:00 UTC of day 0) do not hit the same attendance row — the
store ends up with two rows for that (person, day). -/
theorem claim_C6_counterexample :
    markSingleAttendance wS 7 0 .present none none none = .ok cxC6a ∧
    markSingleAttendance cxC6a 7 36000000 .present none none none = .ok cxC6b ∧
    (0 : Nat) / dayMs = 36000000 / dayMs ∧
    (cxC6b.employeeAttendance.filter
      (fun r => r.employeeId == 7 && r.date / dayMs == 0)).length = 2 :=
  ⟨by decide, by decide, by decide, by decide⟩

/-- Witness for `claim_C6`: the student path keeps all dates
midnight-aligned, and the employee path stores the two raw same-day
timestamps as two rows. -/
theorem claim_C6_witness :
    (∀ r ∈ wS5a.studentAttendance, r.date % dayMs = 0) ∧
    cxC6b.employeeAttendance.filter (fun r => r.employeeId == 7) =
      [EmployeeAttendance.mk 7 0 .present .manual none none none,
       EmployeeAttendance.mk 7 36000000 .present .manual none none none] :=
  ⟨(claim_C6 wS).1 "10" "A" 3 [⟨10, .present, none⟩] wS5a (by decide) (by decide),
   (claim_C6 wS).2 7 0 36000000 .present none none none cxC6a cxC6b
     (by decide) (by decide) (by decide) (by decide)⟩

/-! ## C7: leave approval propagates to attendance -/


theorem find?_append_right {α} (p : α → Bool) (l₁ l₂ : List α)
    (h : ∀ a ∈ l₁, p a = false) :
    (l₁ ++ l₂).find? p = l₂.find? p := by
  induction l₁ with
  | nil => rfl
  | cons a rest ih =>
    rw [List.cons_append, List.find?_cons]
    rw [h a (List.mem_cons_self a rest)]
    exact ih (fun b hb => h b (List.mem_cons_of_mem a hb))

theorem filter_map_comm {α} (f : α → α) (q : α → Bool) (l : List α)
    (h : ∀ a ∈ l, q (f a) = q a) :
    (l.map f).filter q = (l.filter q).map f := by
  induction l with
  | nil => rfl
  | cons a rest ih =>
    have ha := h a (List.mem_cons_self a rest)
    have ih' := ih (fun b hb => h b (List.mem_cons_of_mem a hb))
    simp only [List.map_cons, List.filter_cons]
    cases hq : q a with
    | true => rw [ha, hq]; simp [ih']
    | false => rw [ha, hq]; simp [ih']

/-- **C7** (confirmed).  Creating a leave for employee E over the
midnight-aligned range `[a, a+k]` and approving it (one transaction each,
modelled by the `Except` rollback semantics: if any step failed, none of the
status update, history append or attendance propagation would persist)
leaves the store with: history for that leave exactly `[pending, approved]`,
the leave itself `approved`, and for *every* calendar day of the range
exactly one EmployeeAttendance row with status `on_leave` and a remark
referencing the leave.  For a 3-day leave (`k = 2`) this is exactly 3
`on_leave` rows and 2 history rows. -/
theorem claim_C7 (s : Store) (E a k : Nat) (reason : String) (com : Option String)
    (hfresh1 : ∀ l ∈ s.leaves, l.leaveId ≠ s.nextId)
    (hfresh2 : ∀ h ∈ s.leaveHistory, h.leaveId ≠ s.nextId)
    (hpwE : s.employeeAttendance.Pairwise
      (fun r1 r2 => ¬(r1.employeeId = r2.employeeId ∧ r1.date = r2.date))) :
    ∀ s₂, updateLeaveStatus
        (createLeaveRequest s E (a * dayMs) ((a + k) * dayMs) reason)
        s.nextId .approved com = .ok s₂ →
      (s₂.leaveHistory.filter (fun h => h.leaveId == s.nextId)).map
          (fun h => h.status) = [.pending, .approved] ∧
      (s₂.leaves.filter (fun l => l.leaveId == s.nextId)).map
          (fun l => l.status) = [.approved] ∧
      (∀ d, a ≤ d → d ≤ a + k →
        (s₂.employeeAttendance.filter (empKey E (d * dayMs))).length = 1 ∧
        ∀ r ∈ s₂.employeeAttendance.filter (empKey E (d * dayMs)),
          r.status = .on_leave ∧
            r.remarks = some ("Approved Leave: " ++ reason)) := by
  intro s₂ hok
  unfold updateLeaveStatus at hok
  have hfind : (createLeaveRequest s E (a * dayMs) ((a + k) * dayMs)
      reason).leaves.find? (fun l => l.leaveId == s.nextId) =
      some (EmployeeLeave.mk s.nextId E (a * dayMs) ((a + k) * dayMs)
        reason .pending) := by
    unfold createLeaveRequest
    dsimp only
    rw [find?_append_right _ _ _ (fun l hl => by
      simp only [beq_eq_false_iff_ne, ne_eq]
      exact hfresh1 l hl)]
    rw [List.find?_cons]
    simp
  rw [hfind] at hok
  simp only [if_true, beq_self_eq_true, Except.ok.injEq] at hok
  subst hok
  unfold createLeaveRequest
  dsimp only
  refine ⟨?_, ?_, ?_⟩
  · rw [List.append_assoc, List.filter_append]
    have hnil : s.leaveHistory.filter (fun h => h.leaveId == s.nextId) = [] := by
      rw [List.filter_eq_nil_iff]
      intro h hh
      simp only [beq_eq_false_iff_ne, ne_eq, Bool.not_eq_true]
      simpa using hfresh2 h hh
    rw [hnil, List.nil_append]
    simp
  · rw [filter_map_comm _ _ _ (fun l _ => by
      by_cases hl : (l.leaveId == s.nextId) = true
      · rw [if_pos hl]
      · rw [if_neg hl])]
    rw [List.filter_append]
    have hnil : s.leaves.filter (fun l => l.leaveId == s.nextId) = [] := by
      rw [List.filter_eq_nil_iff]
      intro l hl
      simp only [beq_eq_false_iff_ne, ne_eq, Bool.not_eq_true]
      simpa using hfresh1 l hl
    rw [hnil, List.nil_append]
    simp
  · intro d hda hdb
    have hrange := dateRange_days a (a + k) (by omega)
    have hfold := fold_upsert_key (dateRange (a * dayMs) ((a + k) * dayMs))
      (fun _ r => { r with
        status := .on_leave
        source := .manual
        remarks := some ("Approved Leave: " ++ reason) })
      (fun d₀ => EmployeeAttendance.mk E d₀ .on_leave .manual
        (some ("Approved Leave: " ++ reason)) none none)
      s.employeeAttendance E (d * dayMs) .on_leave
      (some ("Approved Leave: " ++ reason))
      (fun x _ => ⟨rfl, rfl, rfl⟩)
      (fun x _ r _ => ⟨rfl, rfl⟩)
      (fun x _ r _ => ⟨rfl, rfl⟩)
      (by
        refine ⟨d * dayMs, ?_, rfl⟩
        rw [hrange]
        apply List.mem_map.mpr
        refine ⟨d - a, ?_, ?_⟩
        · rw [List.mem_range]
          omega
        · have : a + (d - a) = d := by omega
          rw [this])
    have hle := empKeyUnique_of_pairwise s.employeeAttendance E (d * dayMs) hpwE
    constructor
    · rw [hfold.1]
      omega
    · exact hfold.2

/-- Witness for `claim_C7`: the concrete 3-day scenario — leave 2025-ish
days 10..12 for employee 7, created then approved — has history
`[pending, approved]`, an approved leave row, one `on_leave` row on day 11,
and (checked directly on the resulting store) exactly 3 `on_leave` rows. -/
theorem claim_C7_witness :
    ((wS7.leaveHistory.filter (fun h => h.leaveId == 0)).map
        (fun h => h.status) = [.pending, .approved] ∧
      (wS7.leaves.filter (fun l => l.leaveId == 0)).map
        (fun l => l.status) = [.approved] ∧
      ((wS7.employeeAttendance.filter (empKey 7 (11 * dayMs))).length = 1 ∧
        ∀ r ∈ wS7.employeeAttendance.filter (empKey 7 (11 * dayMs)),
          r.status = .on_leave ∧ r.remarks = some ("Approved Leave: " ++ "flu"))) ∧
    (wS7.employeeAttendance.filter
      (fun r => r.employeeId == 7 && r.status == AttStatus.on_leave)).length = 3 :=
  ⟨(fun h => ⟨h.1, h.2.1, h.2.2 11 (by decide) (by decide)⟩)
    (claim_C7 wS 7 10 2 "flu" (some "ok") (by decide) (by decide) (by decide)
      wS7 (by decide)),
   by decide⟩

/-! ## C8: leave transitions and the append-only history -/
theorem updateLeaveStatus_history (s : Store) (lid : Nat) (st : LeaveStatus)
    (com : Option String) (s' : Store)
    (hok : updateLeaveStatus s lid st com = .ok s') :
    s'.leaveHistory = s.leaveHistory ++ [LeaveHistory.mk lid st com] := by
  unfold updateLeaveStatus at hok
  split at hok
  · simp at hok
  next leave hfind =>
    dsimp only at hok
    split at hok
    · simp only [Except.ok.injEq] at hok
      subst hok
      rfl
    · simp only [Except.ok.injEq] at hok
      subst hok
      rfl

theorem updateLeaveStatus_succeeds (s : Store) (lid : Nat) (st : LeaveStatus)
    (com : Option String) (leave : EmployeeLeave)
    (hfind : s.leaves.find? (fun l => l.leaveId == lid) = some leave) :
    ∃ s', updateLeaveStatus s lid st com = .ok s' := by
  unfold updateLeaveStatus
  rw [hfind]
  dsimp only
  by_cases hst : (st == LeaveStatus.approved) = true
  · rw [if_pos hst]
    exact ⟨_, rfl⟩
  · rw [if_neg hst]
    exact ⟨_, rfl⟩

theorem applyTransitions_count (lid : Nat) :
    ∀ (ts : List (LeaveStatus × Option String)) (s₀ s' : Store),
      applyTransitions lid s₀ ts = .ok s' →
      (s'.leaveHistory.filter (fun h => h.leaveId == lid)).length =
        (s₀.leaveHistory.filter (fun h => h.leaveId == lid)).length + ts.length := by
  intro ts
  induction ts with
  | nil =>
    intro s₀ s' hok
    unfold applyTransitions at hok
    simp only [Except.ok.injEq] at hok
    subst hok
    simp
  | cons t rest ih =>
    intro s₀ s' hok
    unfold applyTransitions at hok
    split at hok
    next s₁ hstep =>
      have hcount := ih s₁ s' hok
      have hhist := updateLeaveStatus_history s₀ lid t.1 t.2 s₁ hstep
      rw [hcount, hhist, List.filter_append, List.length_append]
      simp [List.filter_cons]
      omega
    next e hstep =>
      simp at hok

/-- **C8** (amended).  The leave history is append-only: every leave starts
at `pending` with one initial history row written by `createLeaveRequest`,
each `updateLeaveStatus` call appends exactly one immutable history row
(never mutating or deleting existing ones), and after K transitions
(counting creation) the leave has exactly K history rows.  However the
transitions are *not* one-way as the claim states: `updateLeaveStatus`
accepts any of pending/approved/rejected regardless of the current status —
an approved leave can be re-transitioned, even back to `pending` (see
`claim_C8_counterexample`). -/
theorem claim_C8 (s : Store) (E lid fromD toD : Nat) (reason : String)
    (hfresh2 : ∀ h ∈ s.leaveHistory, h.leaveId ≠ s.nextId) :
    (∀ (st : LeaveStatus) (com : Option String) (leave : EmployeeLeave),
      s.leaves.find? (fun l => l.leaveId == lid) = some leave →
      ∃ s', updateLeaveStatus s lid st com = .ok s' ∧
        s'.leaveHistory = s.leaveHistory ++ [LeaveHistory.mk lid st com]) ∧
    ((createLeaveRequest s E fromD toD reason).leaveHistory =
      s.leaveHistory ++ [LeaveHistory.mk s.nextId .pending
        (some "Leave request created.")]) ∧
    (∀ (ts : List (LeaveStatus × Option String)) (s' : Store),
      applyTransitions s.nextId (createLeaveRequest s E fromD toD reason) ts =
        .ok s' →
      (s'.leaveHistory.filter (fun h => h.leaveId == s.nextId)).length =
        1 + ts.length) := by
  refine ⟨?_, rfl, ?_⟩
  · intro st com leave hfind
    rcases updateLeaveStatus_succeeds s lid st com leave hfind with ⟨s', hok⟩
    exact ⟨s', hok, updateLeaveStatus_history s lid st com s' hok⟩
  · intro ts s' hok
    have := applyTransitions_count s.nextId ts _ s' hok
    rw [this]
    unfold createLeaveRequest
    dsimp only
    rw [List.filter_append, List.length_append]
    have hnil : s.leaveHistory.filter (fun h => h.leaveId == s.nextId) = [] := by
      rw [List.filter_eq_nil_iff]
      intro h hh
      simp only [beq_eq_false_iff_ne, ne_eq, Bool.not_eq_true]
      simpa using hfresh2 h hh
    rw [hnil]
    simp

/-- Counterexample to C8 as stated: `cxC8` holds an *approved* leave, yet
`updateLeaveStatus(0, pending)` succeeds and the leave returns to
`pending` — transitions are not one-way and an approved leave is
re-transitioned. -/
theorem claim_C8_counterexample :
    cxC8.leaves.map (fun l => l.status) = [.approved] ∧
    updateLeaveStatus cxC8 0 .pending none = .ok cxC8' ∧
    cxC8'.leaves.map (fun l => l.status) = [.pending] :=
  ⟨by decide, by decide, by decide⟩

/-- Witness for `claim_C8`: creating a leave and applying the 3 transitions
approved, pending, approved yields exactly `1 + 3 = 4` history rows. -/
theorem claim_C8_witness :
    (wC8'.leaveHistory.filter (fun h => h.leaveId == 0)).length = 1 + 3 :=
  (claim_C8 wS 7 0 (10 * dayMs) (12 * dayMs) "flu" (by decide)).2.2
    [(.approved, none), (.pending, none), (.approved, none)] wC8' (by decide)

/-! ## C10: student leave bypasses the leave state machine -/

/-- **C10** (confirmed).  A student-initiated leave request creates no leave
entity, no pending state and no status-history row: `studentCreateLeave`
leaves the `employee_leaves` and `leave_status_history` tables (the only
leave/history tables in the schema — there is no student-leave table at
all), the employee attendance and the admissions untouched, and directly
upserts one StudentAttendance row with status `on_leave` and the given
reason as remark for every day of `[fromDate, toDate]`, in one transaction —
the student leave never passes through the pending→approved state machine. -/
theorem claim_C10 (s : Store) (u a b : Nat) (reason : String)
    (stu : Student)
    (hab : a ≤ b)
    (hstu : s.students.find? (fun st => st.userId == some u) = some stu)
    (hpwS : s.studentAttendance.Pairwise
      (fun r1 r2 => ¬(r1.studentId = r2.studentId ∧ r1.date = r2.date))) :
    ∀ s', studentCreateLeave s u (a * dayMs) (b * dayMs) reason = .ok s' →
      s'.leaves = s.leaves ∧
      s'.leaveHistory = s.leaveHistory ∧
      s'.employeeAttendance = s.employeeAttendance ∧
      s'.admissions = s.admissions ∧
      (∀ d, a ≤ d → d ≤ b →
        (s'.studentAttendance.filter (stuKey stu.studentId (d * dayMs))).length = 1 ∧
        ∀ r ∈ s'.studentAttendance.filter (stuKey stu.studentId (d * dayMs)),
          r.status = .on_leave ∧ r.remarks = some reason) := by
  intro s' hok
  unfold studentCreateLeave at hok
  rw [if_neg (by
    simp only [not_lt]
    exact Nat.mul_le_mul_right _ hab), hstu] at hok
  dsimp only at hok
  split at hok
  · simp at hok
  next admission hfold0 =>
    simp only [Except.ok.injEq] at hok
    subst hok
    refine ⟨rfl, rfl, rfl, rfl, ?_⟩
    intro d hda hdb
    dsimp only
    have hrange := dateRange_days a b hab
    have hmem : d * dayMs ∈ dateRange (a * dayMs) (b * dayMs) := by
      rw [hrange]
      apply List.mem_map.mpr
      refine ⟨d - a, ?_, ?_⟩
      · rw [List.mem_range]
        omega
      · have : a + (d - a) = d := by omega
        rw [this]
    have hfold := stu_fold_key (dateRange (a * dayMs) (b * dayMs))
      stu.studentId admission.classId .on_leave (some reason)
      s.studentAttendance s.nextId (d * dayMs) hmem
    have hle := stuKeyUnique_of_pairwise s.studentAttendance stu.studentId
      (d * dayMs) hpwS
    constructor
    · rw [hfold.1]
      omega
    · exact hfold.2
/-- Witness for `claim_C10`: student 100's leave for days 4..6 yields three
`on_leave` rows (one checked at day 5) and unchanged leave/history tables. -/
theorem claim_C10_witness :
    wC10'.leaves = wC10.leaves ∧
    wC10'.leaveHistory = wC10.leaveHistory ∧
    wC10'.employeeAttendance = wC10.employeeAttendance ∧
    wC10'.admissions = wC10.admissions ∧
    ((wC10'.studentAttendance.filter (stuKey 100 (5 * dayMs))).length = 1 ∧
      ∀ r ∈ wC10'.studentAttendance.filter (stuKey 100 (5 * dayMs)),
        r.status = .on_leave ∧ r.remarks = some "sick") :=
  (fun h => ⟨h.1, h.2.1, h.2.2.1, h.2.2.2.1,
    h.2.2.2.2 5 (by decide) (by decide)⟩)
  (claim_C10 wC10 55 4 6 "sick" ⟨100, some 55⟩ (by decide) (by decide)
    (by decide) wC10' (by decide))

/-! ## C9: student leave cancellation -- future-only guard and contiguous run -/

theorem insertByDate_perm (r : StudentAttendance) :
    ∀ l : List StudentAttendance, (insertByDate r l).Perm (r :: l) := by
  intro l
  induction l with
  | nil => simp [insertByDate]
  | cons x xs ih =>
    unfold insertByDate
    split
    · exact List.Perm.refl _
    · exact (ih.cons x).trans (List.Perm.swap r x xs)

theorem sortByDate_perm (l : List StudentAttendance) :
    (sortByDate l).Perm l := by
  induction l with
  | nil => simp [sortByDate]
  | cons x xs ih =>
    unfold sortByDate
    exact (insertByDate_perm x (sortByDate xs)).trans (ih.cons x)

theorem insertByDate_sorted (r : StudentAttendance) :
    ∀ l : List StudentAttendance,
    l.Pairwise (fun a b => a.date ≤ b.date) →
    (insertByDate r l).Pairwise (fun a b => a.date ≤ b.date) := by
  intro l
  induction l with
  | nil => intro _; simp [insertByDate]
  | cons x xs ih =>
    intro hs
    rw [List.pairwise_cons] at hs
    unfold insertByDate
    split
    next hle =>
      rw [List.pairwise_cons]
      refine ⟨?_, List.pairwise_cons.mpr hs⟩
      intro b hb
      rcases List.mem_cons.mp hb with h | h
      · rw [h]; exact hle
      · exact le_trans hle (hs.1 b h)
    next hgt =>
      rw [List.pairwise_cons]
      refine ⟨?_, ih hs.2⟩
      intro b hb
      have hb' : b ∈ r :: xs := (insertByDate_perm r xs).mem_iff.mp hb
      rcases List.mem_cons.mp hb' with h | h
      · rw [h]; exact le_of_not_le hgt
      · exact hs.1 b h

theorem sortByDate_sorted (l : List StudentAttendance) :
    (sortByDate l).Pairwise (fun a b => a.date ≤ b.date) := by
  induction l with
  | nil => simp [sortByDate]
  | cons x xs ih =>
    unfold sortByDate
    exact insertByDate_sorted x (sortByDate xs) ih

theorem pairwise_imp_of_mem {α : Type} {R S : α → α → Prop} :
    ∀ {l : List α}, (∀ a ∈ l, ∀ b ∈ l, R a b → S a b) →
    l.Pairwise R → l.Pairwise S := by
  intro l
  induction l with
  | nil => intro _ _; exact List.Pairwise.nil
  | cons x xs ih =>
    intro h hpw
    rw [List.pairwise_cons] at hpw ⊢
    constructor
    · intro b hb
      exact h x (by simp) b (by simp [hb]) (hpw.1 b hb)
    · exact ih (fun a ha b hb => h a (by simp [ha]) b (by simp [hb])) hpw.2

theorem pairwise_key_eq {α : Type} (key : α → Nat) {l : List α}
    (hpw : l.Pairwise (fun a b => key a ≠ key b)) {a b : α}
    (ha : a ∈ l) (hb : b ∈ l) (hk : key a = key b) : a = b := by
  by_contra hne
  have hsym : Symmetric (fun a b : α => key a ≠ key b) := by
    intro x y h e
    exact h e.symm
  exact List.Pairwise.forall hsym hpw ha hb hne hk

theorem contains_true_iff (l : List Nat) (a : Nat) :
    l.contains a = true ↔ a ∈ l := by
  simp

theorem chain_of_arith_map (C : List StudentAttendance) (d₀ k : Nat)
    (h : C.map (fun r => r.date) = (List.range (k+1)).map (fun i => d₀ + i * dayMs)) :
    List.Chain' (fun a b => b.date = a.date + dayMs) C := by
  have h1 : List.Chain' (fun x y => y = x + dayMs) (C.map (fun r => r.date)) := by
    rw [h, List.chain'_map]
    rw [List.chain'_range_succ]
    intro m _
    rw [Nat.succ_mul]
    ring
  rw [List.chain'_map] at h1
  exact h1

theorem sorted_window_decomp :
    ∀ (k d₀ : Nat) (L : List StudentAttendance),
    L.Pairwise (fun a b => a.date < b.date) →
    (∀ r ∈ L, d₀ ≤ r.date ∧ (r.date - d₀) % dayMs = 0 ∧ r.date ≠ d₀ + (k+1) * dayMs) →
    (∀ i, i ≤ k → ∃ r ∈ L, r.date = d₀ + i * dayMs) →
    ∃ C T, L = C ++ T ∧
      C.map (fun r => r.date) = (List.range (k+1)).map (fun i => d₀ + i * dayMs) ∧
      ∀ r ∈ T, d₀ + (k+1) * dayMs < r.date := by
  intro k
  induction k with
  | zero =>
    intro d₀ L hsort hall hex
    obtain ⟨r0, hr0L, hr0d⟩ := hex 0 (le_refl 0)
    rw [Nat.zero_mul, Nat.add_zero] at hr0d
    cases L with
    | nil => exact absurd hr0L (List.not_mem_nil r0)
    | cons x L' =>
      rw [List.pairwise_cons] at hsort
      have hxd : x.date = d₀ := by
        rcases List.mem_cons.mp hr0L with h | h
        · rw [← h]; exact hr0d
        · have hlt := hsort.1 r0 h
          have hge := (hall x (by simp)).1
          rw [hr0d] at hlt
          omega
      refine ⟨[x], L', by simp, ?_, ?_⟩
      · simp [List.range_succ, hxd]
      · intro r hrL'
        have hlt : x.date < r.date := hsort.1 r hrL'
        obtain ⟨h1, h2, h3⟩ := hall r (by simp [hrL'])
        rw [hxd] at hlt
        rw [Nat.one_mul] at h3 ⊢
        unfold dayMs at h2 h3 ⊢
        omega
  | succ k ih =>
    intro d₀ L hsort hall hex
    obtain ⟨r0, hr0L, hr0d⟩ := hex 0 (Nat.zero_le _)
    rw [Nat.zero_mul, Nat.add_zero] at hr0d
    cases L with
    | nil => exact absurd hr0L (List.not_mem_nil r0)
    | cons x L' =>
      rw [List.pairwise_cons] at hsort
      have hxd : x.date = d₀ := by
        rcases List.mem_cons.mp hr0L with h | h
        · rw [← h]; exact hr0d
        · have hlt := hsort.1 r0 h
          have hge := (hall x (by simp)).1
          rw [hr0d] at hlt
          omega
      have hall' : ∀ r ∈ L', (d₀ + dayMs) ≤ r.date ∧
          (r.date - (d₀ + dayMs)) % dayMs = 0 ∧
          r.date ≠ (d₀ + dayMs) + (k+1) * dayMs := by
        intro r hr
        obtain ⟨h1, h2, h3⟩ := hall r (by simp [hr])
        have hlt : x.date < r.date := hsort.1 r hr
        rw [hxd] at hlt
        have heq : (d₀ + dayMs) + (k+1) * dayMs = d₀ + (k+1+1) * dayMs := by ring
        refine ⟨?_, ?_, ?_⟩
        · unfold dayMs at h2 ⊢; omega
        · unfold dayMs at h2 ⊢; omega
        · rw [heq]; exact h3
      have hex' : ∀ i, i ≤ k → ∃ r ∈ L', r.date = (d₀ + dayMs) + i * dayMs := by
        intro i hi
        obtain ⟨r, hrL, hrd⟩ := hex (i+1) (Nat.succ_le_succ hi)
        have hrne : r ≠ x := by
          intro h
          rw [h, hxd] at hrd
          rw [Nat.succ_mul] at hrd
          have hpos : 0 ≤ i * dayMs := Nat.zero_le _
          unfold dayMs at hrd
          omega
        have hrL' : r ∈ L' := by
          rcases List.mem_cons.mp hrL with h | h
          · exact absurd h hrne
          · exact h
        refine ⟨r, hrL', ?_⟩
        rw [hrd]; ring
      obtain ⟨C', T, hLCT, hmap, hT⟩ :=
        ih (d₀ + dayMs) L' hsort.2 hall' hex'
      refine ⟨x :: C', T, by simp [hLCT], ?_, ?_⟩
      · simp only [List.map_cons, hxd, hmap]
        exact range_map_shift d₀ (k+1)
      · intro r hr
        have hgt := hT r hr
        have heq : (d₀ + dayMs) + (k+1) * dayMs = d₀ + (k+1+1) * dayMs := by ring
        rw [heq] at hgt
        exact hgt

theorem collectRun_start (aid : Nat) (d : StudentAttendance)
    (rest : List StudentAttendance) (h : d.attendanceId = aid) :
    collectRun aid (d :: rest) false = collectRun aid (d :: rest) true := by
  subst h
  simp [collectRun]

theorem collectRun_chain (aid : Nat) :
    ∀ (C : List StudentAttendance) (d : StudentAttendance)
      (T : List StudentAttendance),
    List.Chain' (fun a b => b.date = a.date + dayMs) (d :: C) →
    (∀ t T2, T = t :: T2 → ∀ r ∈ d :: C, t.date ≠ r.date + dayMs) →
    collectRun aid (d :: (C ++ T)) true = (d :: C).map (fun r => r.attendanceId) := by
  intro C
  induction C with
  | nil =>
    intro d T hchain hbreak
    cases T with
    | nil => rfl
    | cons t T2 =>
      have hne : t.date ≠ d.date + dayMs := hbreak t T2 rfl d (by simp)
      have step : collectRun aid (d :: t :: T2) true =
          d.attendanceId ::
            (if t.date == d.date + dayMs then collectRun aid (t :: T2) true
             else []) := rfl
      rw [List.nil_append, step, if_neg (by simp [hne])]
      rfl
  | cons c C' ih =>
    intro d T hchain hbreak
    rw [List.chain'_cons] at hchain
    have hbreak' : ∀ t T2, T = t :: T2 → ∀ r ∈ c :: C', t.date ≠ r.date + dayMs :=
      fun t T2 hT r hr => hbreak t T2 hT r (List.mem_cons_of_mem d hr)
    have hrec := ih c T hchain.2 hbreak'
    have step : collectRun aid (d :: c :: (C' ++ T)) true =
        d.attendanceId ::
          (if c.date == d.date + dayMs then collectRun aid (c :: (C' ++ T)) true
           else []) := rfl
    rw [List.cons_append, step, if_pos (by simp [hchain.1]), hrec]
    rfl

theorem collectRun_window (aid k d₀ : Nat) (A : List StudentAttendance)
    (q : StudentAttendance → Bool)
    (hpwDate : (A.filter q).Pairwise (fun a b => a.date ≠ b.date))
    (hqd : ∀ r ∈ A, q r = true →
      d₀ ≤ r.date ∧ (r.date - d₀) % dayMs = 0 ∧ r.date ≠ d₀ + (k+1) * dayMs)
    (hex : ∀ i, i ≤ k → ∃ r ∈ A, q r = true ∧ r.date = d₀ + i * dayMs)
    (htgt : ∀ r ∈ A, q r = true → r.date = d₀ → r.attendanceId = aid) :
    collectRun aid (sortByDate (A.filter q)) false ≠ [] ∧
    (∀ a, a ∈ collectRun aid (sortByDate (A.filter q)) false ↔
      ∃ r, r ∈ A ∧ q r = true ∧ r.date ≤ d₀ + k * dayMs ∧ r.attendanceId = a) := by
  have hperm := sortByDate_perm (A.filter q)
  have hLmem : ∀ r, r ∈ sortByDate (A.filter q) ↔ r ∈ A ∧ q r = true := by
    intro r
    rw [hperm.mem_iff, List.mem_filter]
  have hsymm : Symmetric (fun a b : StudentAttendance => a.date ≠ b.date) := by
    intro x y h e
    exact h e.symm
  have hLne : (sortByDate (A.filter q)).Pairwise (fun a b => a.date ≠ b.date) :=
    (hperm.pairwise_iff (fun hab e => hab e.symm)).mpr hpwDate
  have hLle := sortByDate_sorted (A.filter q)
  have hLlt : (sortByDate (A.filter q)).Pairwise (fun a b => a.date < b.date) :=
    (hLle.and hLne).imp (fun h => lt_of_le_of_ne h.1 h.2)
  have hall : ∀ r ∈ sortByDate (A.filter q),
      d₀ ≤ r.date ∧ (r.date - d₀) % dayMs = 0 ∧ r.date ≠ d₀ + (k+1) * dayMs := by
    intro r hr
    obtain ⟨hrA, hrq⟩ := (hLmem r).mp hr
    exact hqd r hrA hrq
  have hex' : ∀ i, i ≤ k → ∃ r ∈ sortByDate (A.filter q), r.date = d₀ + i * dayMs := by
    intro i hi
    obtain ⟨r, hrA, hrq, hrd⟩ := hex i hi
    exact ⟨r, (hLmem r).mpr ⟨hrA, hrq⟩, hrd⟩
  obtain ⟨C, T, hLCT, hmap, hT⟩ :=
    sorted_window_decomp k d₀ (sortByDate (A.filter q)) hLlt hall hex'
  cases C with
  | nil =>
    exfalso
    rw [List.range_succ_eq_map] at hmap
    simp at hmap
  | cons c₀ C' =>
    -- dates of the chain rows
    have hCdates : ∀ r ∈ c₀ :: C', ∃ i, i ≤ k ∧ r.date = d₀ + i * dayMs := by
      intro r hr
      have : r.date ∈ (c₀ :: C').map (fun r => r.date) := List.mem_map_of_mem _ hr
      rw [hmap] at this
      obtain ⟨i, hi, hfi⟩ := List.mem_map.mp this
      rw [List.mem_range] at hi
      exact ⟨i, by omega, hfi.symm⟩
    have hc0d : c₀.date = d₀ := by
      rw [List.range_succ_eq_map] at hmap
      simp only [List.map_cons, List.map_map] at hmap
      have := (List.cons.injEq _ _ _ _).mp hmap
      rw [this.1]
      ring
    have hc0L : c₀ ∈ sortByDate (A.filter q) := by
      rw [hLCT]
      exact List.mem_append_left T (by simp)
    have hc0id : c₀.attendanceId = aid := by
      obtain ⟨hA, hq⟩ := (hLmem c₀).mp hc0L
      exact htgt c₀ hA hq hc0d
    have hchain : List.Chain' (fun a b => b.date = a.date + dayMs) (c₀ :: C') :=
      chain_of_arith_map (c₀ :: C') d₀ k hmap
    have hbreak : ∀ t T2, T = t :: T2 → ∀ r ∈ c₀ :: C', t.date ≠ r.date + dayMs := by
      intro t T2 hTeq r hr
      have htT : t ∈ T := by rw [hTeq]; simp
      have hgt := hT t htT
      obtain ⟨i, hik, hrd⟩ := hCdates r hr
      intro he
      have h1 : (i+1) * dayMs ≤ (k+1) * dayMs :=
        Nat.mul_le_mul_right dayMs (by omega)
      have h2 : r.date + dayMs ≤ d₀ + (k+1) * dayMs := by
        calc r.date + dayMs = d₀ + (i * dayMs + dayMs) := by rw [hrd]; ring
          _ = d₀ + (i+1) * dayMs := by rw [Nat.succ_mul]
          _ ≤ d₀ + (k+1) * dayMs := Nat.add_le_add_left h1 d₀
      rw [he] at hgt
      exact absurd (lt_of_lt_of_le hgt h2) (lt_irrefl _)
    have hLeq : sortByDate (A.filter q) = c₀ :: (C' ++ T) := by
      rw [hLCT]; rfl
    have hcoll : collectRun aid (sortByDate (A.filter q)) false =
        (c₀ :: C').map (fun r => r.attendanceId) := by
      rw [hLeq, collectRun_start aid c₀ (C' ++ T) hc0id]
      exact collectRun_chain aid C' c₀ T hchain hbreak
    constructor
    · rw [hcoll]; simp
    · intro a
      rw [hcoll]
      constructor
      · intro ha
        obtain ⟨r, hr, hrid⟩ := List.mem_map.mp ha
        have hrL : r ∈ sortByDate (A.filter q) := by
          rw [hLCT]
          exact List.mem_append_left T hr
        obtain ⟨hrA, hrq⟩ := (hLmem r).mp hrL
        obtain ⟨i, hik, hrd⟩ := hCdates r hr
        refine ⟨r, hrA, hrq, ?_, hrid⟩
        rw [hrd]
        exact Nat.add_le_add_left (Nat.mul_le_mul_right dayMs hik) d₀
      · rintro ⟨r, hrA, hrq, hrle, hrid⟩
        have hrL : r ∈ sortByDate (A.filter q) := (hLmem r).mpr ⟨hrA, hrq⟩
        rw [hLCT] at hrL
        rcases List.mem_append.mp hrL with h | h
        · exact List.mem_map.mpr ⟨r, h, hrid⟩
        · exfalso
          have hgt := hT r h
          have hle2 : d₀ + k * dayMs ≤ d₀ + (k+1) * dayMs :=
            Nat.add_le_add_left (Nat.mul_le_mul_right dayMs (by omega)) d₀
          exact absurd (lt_of_lt_of_le hgt (le_trans hrle hle2)) (lt_irrefl _)

/-- Claim C9 (confirmed).  Student-initiated leave cancellation succeeds only
when the leave's first day is strictly after "today at midnight": a start
date of today or earlier is rejected with an error, leaving the store
unchanged in the transactional model.  On success, exactly the contiguous
run of `on_leave` attendance rows of that student sharing the first row's
remark — days `d0, d0 + 1, ..., d0 + k` with no same-remark leave row on day
`d0 + (k+1)` — is reverted to `absent` with remark
"Leave Cancelled by Student"; every other row, including non-contiguous or
differently-remarked `on_leave` rows, is untouched.  The hypotheses assert
the `(student_id, date)` unique key and the `attendance_id` primary key of
`student_attendance`, and day-aligned dates as enforced by the SQL `DATE`
column type. -/
theorem claim_C9 (s : Store) (u aid todayMid k : Nat)
    (stu : Student) (row : StudentAttendance)
    (hstu : s.students.find? (fun st => st.userId == some u) = some stu)
    (hrow : s.studentAttendance.find? (fun r => r.attendanceId == aid) = some row)
    (hown : row.studentId = stu.studentId)
    (hst : row.status = .on_leave)
    (hpwKey : s.studentAttendance.Pairwise
      (fun a b => ¬(a.studentId = b.studentId ∧ a.date = b.date)))
    (hpwId : s.studentAttendance.Pairwise (fun a b => a.attendanceId ≠ b.attendanceId))
    (halign : ∀ r ∈ s.studentAttendance, r.studentId = stu.studentId →
      r.status = .on_leave → r.remarks = row.remarks → row.date ≤ r.date →
      (r.date - row.date) % dayMs = 0 ∧ r.date ≠ row.date + (k+1) * dayMs)
    (hrun : ∀ i, i ≤ k → ∃ r ∈ s.studentAttendance,
      r.studentId = stu.studentId ∧ r.status = .on_leave ∧
      r.remarks = row.remarks ∧ r.date = row.date + i * dayMs) :
    (row.date ≤ todayMid →
      cancelLeave s u aid todayMid =
        .error (.invalidState "Past or ongoing leave requests cannot be cancelled.")) ∧
    (todayMid < row.date →
      cancelLeave s u aid todayMid =
        .ok { s with
                studentAttendance := s.studentAttendance.map (fun r =>
                  if r.studentId = stu.studentId ∧ r.status = .on_leave ∧
                      r.remarks = row.remarks ∧ row.date ≤ r.date ∧
                      r.date ≤ row.date + k * dayMs then
                    { r with status := .absent,
                             remarks := some "Leave Cancelled by Student" }
                  else r) }) := by
  have hrowA : row ∈ s.studentAttendance := List.mem_of_find?_eq_some hrow
  have hrowid : row.attendanceId = aid := by
    have := List.find?_some hrow
    simpa using this
  -- the filter predicate as it appears in cancelLeave, in propositional form
  have hq : ∀ r : StudentAttendance,
      (r.studentId == stu.studentId && r.status == AttStatus.on_leave &&
        r.remarks == row.remarks && decide (row.date ≤ r.date)) = true ↔
      (r.studentId = stu.studentId ∧ r.status = AttStatus.on_leave ∧
        r.remarks = row.remarks ∧ row.date ≤ r.date) := by
    intro r
    simp [Bool.and_eq_true, and_assoc]
  constructor
  · -- rejection: start date is today or earlier
    intro htoday
    unfold cancelLeave
    rw [hstu]
    dsimp only
    rw [hrow]
    dsimp only
    rw [if_neg (by simp [hown]), if_neg (by simp [hst]), if_pos htoday]
  · -- success: start date strictly in the future
    intro htoday
    unfold cancelLeave
    rw [hstu]
    dsimp only
    rw [hrow]
    dsimp only
    rw [if_neg (by simp [hown]), if_neg (by simp [hst]),
        if_neg (not_le.mpr htoday)]
    have hw := collectRun_window aid k row.date s.studentAttendance
      (fun r => r.studentId == stu.studentId && r.status == AttStatus.on_leave &&
        r.remarks == row.remarks && decide (row.date ≤ r.date))
      (by
        apply pairwise_imp_of_mem
          (R := fun a b : StudentAttendance =>
            ¬(a.studentId = b.studentId ∧ a.date = b.date))
        · intro a ha b hb hR he
          obtain ⟨_, hqa⟩ := List.mem_filter.mp ha
          obtain ⟨_, hqb⟩ := List.mem_filter.mp hb
          have ha' := (hq a).mp hqa
          have hb' := (hq b).mp hqb
          exact hR ⟨by rw [ha'.1, hb'.1], he⟩
        · exact hpwKey.sublist (List.filter_sublist s.studentAttendance))
      (by
        intro r hr hqr
        have h := (hq r).mp hqr
        obtain ⟨hmod, hne⟩ := halign r hr h.1 h.2.1 h.2.2.1 h.2.2.2
        exact ⟨h.2.2.2, hmod, hne⟩)
      (by
        intro i hi
        obtain ⟨r, hrA, h1, h2, h3, h4⟩ := hrun i hi
        refine ⟨r, hrA, ?_, h4⟩
        rw [hq]
        exact ⟨h1, h2, h3, by rw [h4]; exact Nat.le_add_right _ _⟩)
      (by
        intro r hr hqr hd
        have h := (hq r).mp hqr
        have hre : r = row := by
          by_contra hne
          have hsym : Symmetric (fun a b : StudentAttendance =>
              ¬(a.studentId = b.studentId ∧ a.date = b.date)) := by
            intro x y hxy he
            exact hxy ⟨he.1.symm, he.2.symm⟩
          exact List.Pairwise.forall hsym hpwKey hr hrowA hne
            ⟨by rw [h.1, hown], hd⟩
        rw [hre]
        exact hrowid)
    rw [if_neg (by
      intro hempty
      rw [List.isEmpty_iff] at hempty
      exact hw.1 hempty)]
    refine congrArg (fun X => Except.ok { s with studentAttendance := X }) ?_
    apply List.map_congr_left
    intro r hrA
    by_cases hc : (r.studentId = stu.studentId ∧ r.status = AttStatus.on_leave ∧
        r.remarks = row.remarks ∧ row.date ≤ r.date ∧
        r.date ≤ row.date + k * dayMs)
    · rw [if_pos hc, if_pos]
      rw [contains_true_iff]
      rw [hw.2 r.attendanceId]
      exact ⟨r, hrA, (hq r).mpr ⟨hc.1, hc.2.1, hc.2.2.1, hc.2.2.2.1⟩,
        hc.2.2.2.2, rfl⟩
    · rw [if_neg hc, if_neg]
      intro hcon
      rw [contains_true_iff, hw.2 r.attendanceId] at hcon
      obtain ⟨r', hr'A, hq', hle', hid'⟩ := hcon
      have : r' = r := pairwise_key_eq (fun x => x.attendanceId) hpwId hr'A hrA hid'
      rw [this] at hq' hle'
      have h := (hq r).mp hq'
      exact hc ⟨h.1, h.2.1, h.2.2.1, h.2.2.2, hle'⟩

/-- Witness for `claim_C9`: in `wC9`, cancelling from row 1 with today = day 9
reverts exactly rows 1 and 2, and the same call with today = day 10 (the
leave's first day) is rejected. -/
theorem claim_C9_witness :
    cancelLeave wC9 55 1 (9 * dayMs) = .ok wC9' ∧
    cancelLeave wC9 55 1 (10 * dayMs) =
      .error (.invalidState "Past or ongoing leave requests cannot be cancelled.") := by
  constructor
  · have h := (claim_C9 wC9 55 1 (9 * dayMs) 1 ⟨100, some 55⟩
      ⟨1, 100, 1, 10 * dayMs, .on_leave, some "trip"⟩
      (by decide) (by decide) (by decide) (by decide) (by decide) (by decide)
      (by decide) (by decide)).2 (by decide)
    rw [h]
    decide
  · exact (claim_C9 wC9 55 1 (10 * dayMs) 1 ⟨100, some 55⟩
      ⟨1, 100, 1, 10 * dayMs, .on_leave, some "trip"⟩
      (by decide) (by decide) (by decide) (by decide) (by decide) (by decide)
      (by decide) (by decide)).1 (by decide)
